import Mathlib

/-!
Shallow embedding of the nc2zarr converter core (bcdev/nc2zarr) in Lean 4,
with theorems checking the natural-language specification against the code.

Modelling conventions:
* Zarr arrays and xarray variables are represented by the ordered list of
  their entries along their first axis; each entry ("cell") is collapsed to
  a single integer payload.  All claims under scrutiny concern slices along
  the append dimension, which the writer itself requires to be the first
  dimension of every append-dim-bearing variable, so this representation is
  lossless for them.
* Coordinate values along the append dimension (numpy datetime64 or
  numeric) are integers; the default epsilon of 1 ms is 10^6 nanoseconds.
* Python dictionaries become association lists with insertion-order
  semantics (`dictUpdate` mirrors `dict.update`).
* Fallible code returns `Except String`; the error strings abbreviate the
  Python exception messages.
-/

namespace Nc2zarr

/-- Decidable equality for `Except`, used to evaluate the fallible
operations of the embedding on concrete inputs. -/
instance {ε α : Type} [DecidableEq ε] [DecidableEq α] : DecidableEq (Except ε α) :=
  fun a b =>
    match a, b with
    | .error e1, .error e2 =>
        if h : e1 = e2 then isTrue (by rw [h]) else isFalse (fun hh => h (Except.error.inj hh))
    | .ok v1, .ok v2 =>
        if h : v1 = v2 then isTrue (by rw [h]) else isFalse (fun hh => h (Except.ok.inj hh))
    | .error _, .ok _ => isFalse (fun hh => Except.noConfusion hh)
    | .ok _, .error _ => isFalse (fun hh => Except.noConfusion hh)

/-! ### Generic dictionary helpers (Python `dict` as association list) -/

/-- Lookup of a key in an association list (first match wins, as for a
Python `dict` whose keys are unique). -/
def lookupKey {α : Type} (k : String) : List (String × α) → Option α
  | [] => none
  | (k', v) :: rest => if k' = k then some v else lookupKey k rest

/-- Python `base.update(upd)` for insertion-ordered dicts: keys of `base`
keep their position with values replaced from `upd` where present; keys
only in `upd` are appended in `upd`'s order. -/
def dictUpdate {α : Type} (base upd : List (String × α)) : List (String × α) :=
  base.map (fun kv => (kv.1, (lookupKey kv.1 upd).getD kv.2))
    ++ upd.filter (fun kv => (lookupKey kv.1 base).isNone)

/-- Python `d.pop(k)` (ignoring the returned value): remove the entry. -/
def removeKey {α : Type} (k : String) (l : List (String × α)) : List (String × α) :=
  l.filter (fun kv => kv.1 ≠ k)

/-- Membership of a key in an association list. -/
def hasKey {α : Type} (k : String) (l : List (String × α)) : Bool :=
  (lookupKey k l).isSome

/-! ### Data model: zarr stores and in-memory datasets

`cells` is the array's content along its first axis, one opaque integer per
step; for a one-dimensional coordinate variable the cells are exactly the
coordinate values. -/

/-- A zarr array inside a store (`zarr.core.Array`): dimension names, the
entries along axis 0, and the variable's encoding as seen by xarray. -/
structure ZArr where
  dims : List String
  cells : List Int
  encoding : List (String × String) := []
deriving DecidableEq, Repr

/-- A zarr store (root group): named arrays, root-group attributes, and
whether consolidated metadata exists. -/
structure ZStore where
  arrays : List (String × ZArr)
  attrs : List (String × String) := []
  consolidated : Bool := false
deriving DecidableEq, Repr

/-- An in-memory `xr.Dataset` variable. -/
structure XVar where
  dims : List String
  cells : List Int
  attrs : List (String × String) := []
  encoding : List (String × String) := []
  /-- dtype is a byte-string dtype (`np.issubdtype(var.dtype, 'S')`). -/
  bytesDtype : Bool := false
  /-- the variable is a coordinate (member of `ds.coords`, not `ds.data_vars`). -/
  isCoord : Bool := false
deriving DecidableEq, Repr

/-- An in-memory `xr.Dataset`. -/
structure XDataset where
  vars : List (String × XVar)
  attrs : List (String × String) := []
deriving DecidableEq, Repr

/-- Values of the coordinate variable named `dim` in a store (the
one-dimensional array `cube[dim]`). -/
def ZStore.coords (s : ZStore) (dim : String) : List Int :=
  ((lookupKey dim s.arrays).map ZArr.cells).getD []

/-- Values of the coordinate variable named `dim` in a dataset. -/
def XDataset.coords (ds : XDataset) (dim : String) : List Int :=
  ((lookupKey dim ds.vars).map XVar.cells).getD []

/-- Cells of the variable `name` in a store, `[]` if absent. -/
def ZStore.varCells (s : ZStore) (name : String) : List Int :=
  ((lookupKey name s.arrays).map ZArr.cells).getD []

/-- Cells of the variable `name` in a dataset, `[]` if absent. -/
def XDataset.varCells (ds : XDataset) (name : String) : List Int :=
  ((lookupKey name ds.vars).map XVar.cells).getD []

/-! ### dataslice.py -/

/-- Result tag of `find_slice` / update mode of `update_slice`. -/
inductive UpdateMode
  | create
  | append
  | insert
  | replace
deriving DecidableEq, Repr

/-- DEFAULT_EPSILON: 1 millisecond as `timedelta64[ns]`. -/
def DEFAULT_EPSILON : Int := 1000 * 1000

/-- The linear scan of `find_slice` over the coordinate values, carrying the
current index (source: dataslice.py lines 69-76). -/
def findSliceScan (targetValue epsilon : Int) : List Int → Nat → Int × UpdateMode
  | [], _ => (-1, .append)
  | v :: rest, i =>
      if |targetValue - v| < epsilon then ((i : Int), .replace)
      else if targetValue < v then ((i : Int), .insert)
      else findSliceScan targetValue epsilon rest (i + 1)

/-- `find_slice(store, target_value, dimension, epsilon)`: `none` models a
store that cannot be opened (zarr directory does not exist). -/
def find_slice (store : Option ZStore) (targetValue : Int) (dimension : String)
    (epsilon : Int := DEFAULT_EPSILON) : Int × UpdateMode :=
  match store with
  | none => (-1, .create)
  | some cube => findSliceScan targetValue epsilon (cube.coords dimension) 0

/-- `xarray`'s `Dataset.to_zarr(store, mode='a', append_dim=dim)`: every
store array carrying `dim` is extended with the matching dataset variable's
cells; the root-group attributes of the store are replaced by the dataset's
attributes (the xarray behaviour the comment in `append_slice` works
around).  Arrays are tracked along their first axis, so the embedding is
exact for stores in which `dim` is the first dimension of every
`dim`-bearing array. -/
def zarrAppend (store : ZStore) (ds : XDataset) (dim : String) : ZStore :=
  { arrays := store.arrays.map (fun na =>
      if dim ∈ na.2.dims then
        match lookupKey na.1 ds.vars with
        | some v => (na.1, { na.2 with cells := na.2.cells ++ v.cells })
        | none => na
      else na),
    attrs := ds.attrs,
    consolidated := store.consolidated }

/-- `append_slice(store, dataslice, dimension)` (source: dataslice.py lines
79-103): copy the slice, overwrite its attributes with the store's
attributes on shared keys (`dataslice.attrs.update(ds.attrs)`), pop
`coordinates` if present, then `to_zarr(mode='a', append_dim=dimension)`. -/
def append_slice (store : ZStore) (dataslice : XDataset) (dimension : String := "time") :
    ZStore :=
  let attrs1 := dictUpdate dataslice.attrs store.attrs
  let attrs2 := if hasKey "coordinates" attrs1 then removeKey "coordinates" attrs1 else attrs1
  zarrAppend store { dataslice with attrs := attrs2 } dimension

/-- Step (b)+(c) of the insert workflow on one zarr array: append one empty
step (`var_array.append(empty, axis=0)`, modelled with payload 0, which is
always overwritten later), then shift
`var_array[insert_index+1:, ...] = var_array[insert_index:-1, ...]`. -/
def insertShiftCells (cells : List Int) (insertIndex : Nat) : List Int :=
  let appended := cells ++ [0]
  appended.take (insertIndex + 1) ++ (appended.drop insertIndex).dropLast

/-- Result of a successful `update_slice`: the new store plus the encoding
used for the temporary-store write (existing variables' encoding minus
`preferred_chunks`). -/
structure UpdateSliceResult where
  store : ZStore
  tempEncoding : List (String × List (String × String))
deriving DecidableEq, Repr

/-- First pass of `update_slice` over the opened store (source:
dataslice.py lines 135-155): collect the names of append-dim-bearing
variables and their encodings minus `preferred_chunks`; fail if the append
dimension is not the first dimension of such a variable. -/
def collectAppendDimVars (dimension : String) :
    List (String × ZArr) → Except String (List String × List (String × List (String × String)))
  | [] => .ok ([], [])
  | (name, var) :: rest =>
      if var.dims.length ≥ 1 ∧ dimension ∈ var.dims then
        if var.dims.headD "" ≠ dimension then
          .error ("dimension of variable " ++ name ++ " must be first dimension")
        else
          match collectAppendDimVars dimension rest with
          | .error e => .error e
          | .ok (names, encs) =>
              .ok (name :: names, (name, removeKey "preferred_chunks" var.encoding) :: encs)
      else collectAppendDimVars dimension rest

/-- `update_slice(store, insert_index, dataslice, mode, dimension)` (source:
dataslice.py lines 106-179).  The temporary-store write of the slice is
modelled by reading the slice variables' cells directly (the temp encoding
is recorded in the result); `zarr.creation.empty` cells are payload 0 and
are always overwritten before they can be observed. -/
def update_slice (store : ZStore) (insertIndex : Nat) (dataslice : XDataset)
    (mode : String) (dimension : String := "time") : Except String UpdateSliceResult :=
  if mode ≠ "insert" ∧ mode ≠ "replace" then
    .error ("illegal mode value: " ++ mode)
  else
    let insertMode := mode = "insert"
    match collectAppendDimVars dimension store.arrays with
    | .error e => .error e
    | .ok (appendDimVarNames, encoding) =>
        let sliceArrays := dataslice.vars
        let newArrays := store.arrays.map (fun na =>
          if na.1 ∈ appendDimVarNames then
            let sliceCell := (((lookupKey na.1 sliceArrays).map XVar.cells).getD []).headD 0
            let cells1 :=
              if insertMode then insertShiftCells na.2.cells insertIndex else na.2.cells
            (na.1, { na.2 with cells := cells1.set insertIndex sliceCell })
          else na)
        .ok { store := { store with arrays := newArrays }, tempEncoding := encoding }

/-- The per-entry mutation performed by `update_slice` in insert mode on the
variables named in `names` (the append-dim-bearing ones). -/
def insertCellMutation (ds : XDataset) (i : Nat) (names : List String)
    (na : String × ZArr) : String × ZArr :=
  if na.1 ∈ names then
    let sliceCell := (((lookupKey na.1 ds.vars).map XVar.cells).getD []).headD 0
    (na.1, { na.2 with cells := (insertShiftCells na.2.cells i).set i sliceCell })
  else na

/-! ### writer.py -/

/-- The five append modes (`_APPEND_MODES`). -/
inductive AppendMode
  | all
  | no_overlap
  | newer
  | replace
  | retain
deriving DecidableEq, Repr

/-- Writer options relevant to the modelled behaviour
(`DatasetWriter.__init__`). -/
structure WriterCfg where
  appendDim : String := "time"
  appendMode : AppendMode := .all
  overwrite : Bool := false
  outputAppend : Bool := false
  inputDecodeCf : Bool := false
  consolidated : Bool := false
deriving DecidableEq, Repr

/-- `np.all(arr[1:] >= arr[:-1])`: adjacent pairs are non-decreasing
(`DatasetWriter._is_append_dim_monotonic_increasing`). -/
def monotonicNondecreasing : List Int → Bool
  | [] => true
  | [_] => true
  | a :: b :: rest => decide (a ≤ b) && monotonicNondecreasing (b :: rest)

/-- `DatasetWriter._check_append_allowed` (source: writer.py lines
251-282), for an existing output store.  The checks run in source order;
the first failing one raises. -/
def checkAppendAllowed (cfg : WriterCfg) (store : ZStore) (ds : XDataset) :
    Except String Unit :=
  if cfg.appendMode ≠ .all ∧ ¬ monotonicNondecreasing (store.coords cfg.appendDim) then
    .error "Existing append-dim values must be increasing."
  else if cfg.appendMode = .no_overlap ∧
      (store.coords cfg.appendDim).getLastD 0 > (ds.coords cfg.appendDim).headD 0 then
    .error "Existing and appended append-dim values may not overlap when using no_overlap."
  else if cfg.appendMode = .newer ∧ ¬ monotonicNondecreasing (ds.coords cfg.appendDim) then
    .error "Appended append-dim values must be increasing when using newer."
  else .ok ()

/-- `xr.decode_cf`: the embedding works in the decoded domain, so CF
decoding is the identity on the abstract payloads. -/
def decodeCf (ds : XDataset) : XDataset := ds

/-- `DatasetWriter._remove_variable_attrs`: clear every variable's
attributes. -/
def removeVariableAttrs (ds : XDataset) : XDataset :=
  { ds with vars := ds.vars.map (fun nv => (nv.1, { nv.2 with attrs := [] })) }

/-- Keep the entries of `cells` whose position is marked `true` in `keep`
(the effect along the append dimension of
`ds.where(cond, drop=True)`). -/
def maskCells (keep : List Bool) (cells : List Int) : List Int :=
  ((keep.zip cells).filter (fun p => p.1)).map (fun p => p.2)

/-- `ds.where(ds[dim] > bound, drop=True)`: restrict every `dim`-bearing
variable to the positions marked in `keep`. -/
def filterAlongDim (ds : XDataset) (dim : String) (keep : List Bool) : XDataset :=
  { ds with vars := ds.vars.map (fun nv =>
      if dim ∈ nv.2.dims then (nv.1, { nv.2 with cells := maskCells keep nv.2.cells })
      else nv) }

/-- `ds.isel({dim: slice(i, i+1)})`: the one-length slice of the dataset at
position `i` along `dim`. -/
def iselSlice (ds : XDataset) (dim : String) (i : Nat) : XDataset :=
  { ds with vars := ds.vars.map (fun nv =>
      if dim ∈ nv.2.dims then (nv.1, { nv.2 with cells := (nv.2.cells.drop i).take 1 })
      else nv) }

/-- One step of `DatasetWriter._append_with_insertions` for the slice at
index `i`. -/
def appendWithInsertionsStep (cfg : WriterCfg) (store : ZStore) (ds : XDataset)
    (i : Nat) : Except String ZStore :=
  let dim := cfg.appendDim
  let dataslice := iselSlice ds dim i
  let target := (ds.coords dim).getD i 0
  let fs := find_slice (some store) target dim
  match fs.2 with
  | .append => .ok (append_slice store dataslice dim)
  | .insert =>
      match update_slice store fs.1.toNat dataslice "insert" dim with
      | .error e => .error e
      | .ok r => .ok r.store
  | .replace =>
      if cfg.appendMode = .replace then
        match update_slice store fs.1.toNat dataslice "replace" dim with
        | .error e => .error e
        | .ok r => .ok r.store
      else .ok store
  | .create => .error "Unhandled update mode!"

/-- `DatasetWriter._append_with_insertions` (source: writer.py lines
223-249): iterate over the one-length slices of `ds` along the append
dimension, locating and applying each one. -/
def appendWithInsertionsGo (cfg : WriterCfg) (ds : XDataset) :
    Nat → Nat → ZStore → Except String ZStore
  | _, 0, store => .ok store
  | i, n + 1, store =>
      match appendWithInsertionsStep cfg store ds i with
      | .error e => .error e
      | .ok store' => appendWithInsertionsGo cfg ds (i + 1) n store'

/-- `DatasetWriter._append_with_insertions`, from slice 0. -/
def appendWithInsertions (cfg : WriterCfg) (store : ZStore) (ds : XDataset) :
    Except String ZStore :=
  appendWithInsertionsGo cfg ds 0 (ds.coords cfg.appendDim).length store

/-- `DatasetWriter._append_dataset` (source: writer.py lines 164-219), for
an existing output store: precondition check, drop byte-string data
variables lacking the append dimension, decode and strip variable
attributes unless inputs were CF-decoded, then dispatch on the append
mode. -/
def appendDataset (cfg : WriterCfg) (store : ZStore) (ds : XDataset) :
    Except String ZStore :=
  match checkAppendAllowed cfg store ds with
  | .error e => .error e
  | .ok _ =>
      let dim := cfg.appendDim
      let ds1 := { ds with vars := ds.vars.filter (fun nv =>
        !(!nv.2.isCoord && !(nv.2.dims.contains dim) && nv.2.bytesDtype)) }
      let ds2 := if cfg.inputDecodeCf then ds1 else removeVariableAttrs (decodeCf ds1)
      match cfg.appendMode with
      | .replace | .retain => appendWithInsertions cfg store ds2
      | .newer =>
          let lastExisting := (store.coords dim).getLastD 0
          let keep := (ds2.coords dim).map (fun c => decide (lastExisting < c))
          let dsNewOnly := filterAlongDim ds2 dim keep
          .ok (zarrAppend store dsNewOnly dim)
      | .all | .no_overlap => .ok (zarrAppend store ds2 dim)

/-- Per-variable write encoding passed to `to_zarr`. -/
abbrev WriteEncoding := List (String × List (String × String))

/-- `Dataset.to_zarr(store, mode='w'/'w-')` on a fresh target: build the
store from the dataset, merging the supplied write encoding over each
variable's own encoding. -/
def dsToStore (ds : XDataset) (encoding : WriteEncoding) (consolidated : Bool) : ZStore :=
  { arrays := ds.vars.map (fun nv =>
      (nv.1, { dims := nv.2.dims, cells := nv.2.cells,
               encoding := dictUpdate nv.2.encoding ((lookupKey nv.1 encoding).getD []) })),
    attrs := ds.attrs,
    consolidated := consolidated }

/-- The writer's mutable state: the output store (`none`: the output path
does not exist), whether `_ensure_store` has run, and
`_output_path_exists`. -/
structure WriterState where
  store : Option ZStore
  ensured : Bool := false
  pathExists : Bool := false
deriving DecidableEq, Repr

/-- Which branch a `_write_dataset` call took (first write creates,
subsequent writes append). -/
inductive WriteOp
  | create
  | append
deriving DecidableEq, Repr

/-- `DatasetWriter._ensure_store` (source: writer.py lines 141-151),
non-finalize-only path: record path existence and remove the dataset when
overwriting. -/
def ensureStore (cfg : WriterCfg) (st : WriterState) : WriterState :=
  if st.ensured then st
  else
    let pe := st.store.isSome
    if cfg.overwrite && pe then { store := none, ensured := true, pathExists := false }
    else { st with ensured := true, pathExists := pe }

/-- `DatasetWriter._create_dataset` (source: writer.py lines 153-162):
`mode='w'` when overwriting, else `mode='w-'` which fails on an existing
target. -/
def createDataset (cfg : WriterCfg) (st : WriterState) (ds : XDataset)
    (encoding : WriteEncoding) : Except String WriterState :=
  if !cfg.overwrite && st.store.isSome then
    .error "path already exists (mode w-)"
  else
    .ok { store := some (dsToStore ds encoding cfg.consolidated),
          ensured := st.ensured, pathExists := true }

/-- `DatasetWriter._write_dataset` (source: writer.py lines 129-139):
resolve the effective append flag, ensure the store, then create or
append. -/
def writeDataset (cfg : WriterCfg) (st : WriterState) (ds : XDataset)
    (encoding : WriteEncoding) (append : Option Bool) :
    Except String (WriterState × WriteOp) :=
  let appendFlag := append.getD cfg.outputAppend
  let st1 := ensureStore cfg st
  if !appendFlag || !st1.pathExists then
    match createDataset cfg st1 ds encoding with
    | .error e => .error e
    | .ok st2 => .ok (st2, .create)
  else
    match st1.store with
    | some s =>
        match appendDataset cfg s ds with
        | .error e => .error e
        | .ok s' => .ok ({ st1 with store := some s' }, .append)
    | none => .error "internal error: output store not open"

/-! ### converter.py -/

/-- The write loop of `Converter._run` (source: converter.py lines
201-207): the first iteration passes `append=None`, every later one
`append=True`; each processed dataset is written with its computed
encoding.  Returns the final writer state and the trace of create/append
operations. -/
def converterLoop (cfg : WriterCfg) :
    List (XDataset × WriteEncoding) → WriterState → Option Bool →
    Except String (WriterState × List WriteOp)
  | [], st, _ => .ok (st, [])
  | (ds, enc) :: rest, st, append =>
      match writeDataset cfg st ds enc append with
      | .error e => .error e
      | .ok (st', op) =>
          match converterLoop cfg rest st' (some true) with
          | .error e => .error e
          | .ok (st'', ops) => .ok (st'', op :: ops)

/-- A full (non-finalize-only) converter run over the processed datasets,
starting from the state of the output path (`none`: no pre-existing
store). -/
def converterRun (cfg : WriterCfg) (inputs : List (XDataset × WriteEncoding))
    (initialStore : Option ZStore) : Except String (WriterState × List WriteOp) :=
  converterLoop cfg inputs { store := initialStore } none

/-! ### processor.py -/

/-- A chunk-size value in a rechunk rule: an integer, `None`, the string
`"input"`, or any other (invalid) value. -/
inductive ChunkVal
  | int (n : Int)
  | null
  | input
  | other (s : String)
deriving DecidableEq, Repr

/-- A per-variable entry of `process_rechunk`: a scalar (`None`, integer or
`"input"`, expanded to all dims of the variable) or a dim→size map. -/
inductive RechunkEntry
  | scalar (v : ChunkVal)
  | dimMap (m : List (String × ChunkVal))
deriving DecidableEq, Repr

/-- A variable as the processor sees it: dimension names, sizes, and the
dask chunking (`None` when the variable is not chunked; otherwise per-dim
lists of chunk sizes). -/
structure CVar where
  dims : List String
  sizes : List Nat
  chunks : Option (List (List Nat)) := none
deriving DecidableEq, Repr

/-- A dataset as the processor sees it (`ds.variables`). -/
structure CDataset where
  vars : List (String × CVar)
deriving DecidableEq, Repr

/-- `v.sizes[dim_name]`. -/
def CVar.sizeOf (v : CVar) (dimName : String) : Nat :=
  (lookupKey dimName (v.dims.zip v.sizes)).getD 0

/-- A value inside a per-variable output encoding: a resolved `chunks`
tuple or any other (uninterpreted) encoding value. -/
inductive EncVal
  | chunksVal (cs : List Int)
  | strVal (s : String)
deriving DecidableEq, Repr

/-- Per-variable encoding dict. -/
abbrev VarEncoding := List (String × EncVal)

/-- Dataset-level encoding (variable name → per-variable encoding). -/
abbrev DsEncoding := List (String × VarEncoding)

/-- Maximum of a list of chunk sizes (`max(*v.chunks[dim_index])`; dask
chunk-size tuples are non-empty, and the embedding takes the plain list
maximum). -/
def listMax (l : List Nat) : Nat := l.foldl max 0

/-- Resolve one dimension's chunk size (source: processor.py lines 81-88):
`"input"` computes `max(*v.chunks[dim_index])` when the variable is
chunked — `max` unpacks the dimension's chunk tuple into its arguments, so
a tuple of fewer than two entries makes Python call `max` on a single
integer and raise `TypeError` — or the dim size when unchunked; `None`
means the full dim size, an integer stands for itself, anything else is an
invalid chunk size. -/
def resolveDimChunkSize (v : CVar) (dimIndex : Nat) (dimName : String) :
    ChunkVal → Except String Int
  | .input =>
      (match v.chunks with
      | some chs =>
          if (chs.getD dimIndex []).length ≥ 2 then
            .ok (listMax (chs.getD dimIndex []) : Int)
          else .error "TypeError: 'int' object is not iterable"
      | none => .ok (v.sizeOf dimName : Int))
  | .null => .ok (v.sizeOf dimName : Int)
  | .int n => .ok n
  | .other s => .error ("invalid chunk size: " ++ s)

/-- Whether a chunk-size value is of the invalid kind (neither an integer,
`None`, nor `"input"`). -/
def ChunkVal.isOther : ChunkVal → Bool
  | .other _ => true
  | _ => false

/-- Whether resolving this chunk-size value raises Python's `TypeError`:
the value is `"input"`, the variable is dask-chunked, and the dimension's
chunk tuple has fewer than two entries (so `max(*chunks)` calls `max` on a
single integer). -/
def chunkValCrashes (v : CVar) (dimIndex : Nat) : ChunkVal → Bool
  | .input =>
      (match v.chunks with
      | some chs => decide ((chs.getD dimIndex []).length < 2)
      | none => false)
  | _ => false

/-- The chunk-size resolution rule as the specification states it:
`"input"` takes the largest existing chunk size along the dimension (or
the dimension size when the variable is unchunked), `None` the full
dimension size, and an integer stands for itself. -/
def specResolvedChunkSize (v : CVar) (dimIndex : Nat) (dimName : String) :
    ChunkVal → Int
  | .input => (match v.chunks with
      | some chs => (listMax (chs.getD dimIndex []) : Int)
      | none => (v.sizeOf dimName : Int))
  | .null => (v.sizeOf dimName : Int)
  | .int n => n
  | .other _ => 0

/-- The effective dim→size map for a variable: the `"*"` defaults updated
by the variable's own entry, a scalar being expanded to every dim of the
variable and a dim map being completed with `None` for the variable's dims
it does not mention (source: processor.py lines 65-75). -/
def effectiveDimChunkSizes (star : List (String × ChunkVal))
    (entry : Option RechunkEntry) (v : CVar) : List (String × ChunkVal) :=
  match entry with
  | none => star
  | some (.scalar c) => dictUpdate star (v.dims.map (fun d => (d, c)))
  | some (.dimMap m) =>
      dictUpdate star (v.dims.map (fun d => (d, (lookupKey d m).getD .null)))

/-- The per-dimension resolution loop of `_rechunk_dataset` (source:
processor.py lines 78-88). -/
def resolveChunksGo (v : CVar) (dcs : List (String × ChunkVal)) :
    List String → Nat → Except String (List Int)
  | [], _ => .ok []
  | d :: rest, i =>
      match resolveDimChunkSize v i d ((lookupKey d dcs).getD .input) with
      | .error e => .error e
      | .ok c =>
          match resolveChunksGo v dcs rest (i + 1) with
          | .error e => .error e
          | .ok cs => .ok (c :: cs)

/-- The `"*"` defaults of a rechunk configuration
(`process_rechunk.get('*', {})`). -/
def rechunkStar (rechunk : List (String × RechunkEntry)) : List (String × ChunkVal) :=
  match lookupKey "*" rechunk with
  | some (.dimMap m) => m
  | _ => []

/-- Resolved chunk sizes of one variable under the rechunk rules. -/
def resolveVarChunks (rechunk : List (String × RechunkEntry)) (v : CVar) (name : String) :
    Except String (List Int) :=
  resolveChunksGo v
    (effectiveDimChunkSizes (rechunkStar rechunk) (lookupKey name rechunk) v) v.dims 0

/-- Dask chunking of one dimension of size `size` with chunk size `c`
(`v.chunk(...)`): full blocks of `c` plus a remainder block. -/
def splitDim (size : Nat) (c : Int) : List Nat :=
  let k := c.toNat
  if k = 0 then [size]
  else List.replicate (size / k) k ++ (if size % k ≠ 0 then [size % k] else [])

/-- `_rechunk_dataset` (source: processor.py lines 54-93): resolve every
variable's chunk sizes, rechunk it, and record a `chunks` encoding entry;
variables without dimensions are left alone. -/
def rechunkDataset (rechunk : List (String × RechunkEntry)) :
    List (String × CVar) → Except String (List (String × CVar) × DsEncoding)
  | [] => .ok ([], [])
  | (name, v) :: rest =>
      match resolveVarChunks rechunk v name with
      | .error e => .error e
      | .ok chunks =>
          match rechunkDataset rechunk rest with
          | .error e => .error e
          | .ok (vars', enc') =>
              if chunks ≠ [] then
                let newChunks := some ((v.sizes.zip chunks).map (fun p => splitDim p.1 p.2))
                let v' := { v with chunks := newChunks }
                .ok ((name, v') :: vars', (name, [("chunks", EncVal.chunksVal chunks)]) :: enc')
              else .ok ((name, v) :: vars', enc')

/-- One step of `_merge_encodings` for the variable `nv`: copy the
variable's entry of `enc` when the output has none yet, else
`output_encoding[var_name].update(encoding[var_name])`. -/
def mergeStep (enc : DsEncoding) (out : DsEncoding) (nv : String × CVar) : DsEncoding :=
  match lookupKey nv.1 enc with
  | none => out
  | some ve =>
      match lookupKey nv.1 out with
      | none => out ++ [(nv.1, ve)]
      | some cur => out.map (fun kv => if kv.1 = nv.1 then (kv.1, dictUpdate cur ve) else kv)

/-- Fold one encoding dict into the accumulated output encoding, variable
by variable, later keys overwriting earlier ones
(`DatasetProcessor._merge_encodings`, source: processor.py lines 95-108). -/
def mergeOneEncoding (ds : CDataset) (out enc : DsEncoding) : DsEncoding :=
  ds.vars.foldl (mergeStep enc) out

/-- `DatasetProcessor._merge_encodings` over a list of encodings. -/
def mergeEncodings (ds : CDataset) (encodings : List DsEncoding) : DsEncoding :=
  encodings.foldl (mergeOneEncoding ds) []

/-- `process.rename` applied to a name. -/
def renameStr (m : List (String × String)) (s : String) : String :=
  (lookupKey s m).getD s

/-- `ds.rename(mapping)`: rename matching variables and dimensions. -/
def renameDs (m : List (String × String)) (ds : CDataset) : CDataset :=
  { vars := ds.vars.map (fun nv =>
      (renameStr m nv.1, { nv.2 with dims := nv.2.dims.map (renameStr m) })) }

/-- Processor options (`DatasetProcessor.__init__`); the custom-processor
hook is an arbitrary Python callable and is not modelled. -/
structure ProcessorCfg where
  rename : List (String × String) := []
  rechunk : List (String × RechunkEntry) := []
  outputEncoding : DsEncoding := []
deriving Repr

/-- `DatasetProcessor.process_dataset` (source: processor.py lines 41-52):
rename, rechunk when rules are configured, then merge the per-variable
chunk encoding with the user-supplied encoding. -/
def process_dataset (cfg : ProcessorCfg) (ds : CDataset) :
    Except String (CDataset × DsEncoding) :=
  let ds := if cfg.rename ≠ [] then renameDs cfg.rename ds else ds
  match (if cfg.rechunk ≠ [] then
          (rechunkDataset cfg.rechunk ds.vars).map (fun p => (CDataset.mk p.1, p.2))
         else .ok (ds, ([] : DsEncoding))) with
  | .error e => .error e
  | .ok (ds2, chunkEncoding) =>
      .ok (ds2, mergeEncodings ds2 [chunkEncoding, cfg.outputEncoding])

/-! ### opener.py — `DatasetOpener.resolve_input_paths` -/

/-- The `sort_by` argument as it can arrive from YAML / the CLI: absent
(`None`), a boolean, or a string. -/
inductive SortBy
  | nil
  | bool (b : Bool)
  | str (s : String)
deriving DecidableEq, Repr

/-- Python truthiness of a `sort_by` value. -/
def SortBy.truthy : SortBy → Bool
  | .nil => false
  | .bool b => b
  | .str s => s ≠ ""

/-- The file-system facts `resolve_input_paths` consults: existing local
paths, local glob results per pattern, listable S3 paths, S3 glob results
per pattern, and the home directory for `~` expansion. -/
structure FakeFS where
  existing : List String := []
  globResults : List (String × List String) := []
  s3ls : List String := []
  s3globResults : List (String × List String) := []
  home : String := "/home/user"
deriving Repr

/-- `os.path.expanduser` for a leading `~`. -/
def expanduser (fs : FakeFS) (p : String) : String :=
  if p = "~" then fs.home
  else if "~/".toList.isPrefixOf p.toList then fs.home ++ String.mk (p.toList.drop 1)
  else p

/-- Python `sub in s` substring containment. -/
def containsSub (sub s : String) : Bool := decide (sub.toList <:+: s.toList)

/-- `'*' in path or '?' in path`. -/
def hasWildcard (p : String) : Bool := p.toList.contains '*' || p.toList.contains '?'

/-- Expansion of one input path (source: opener.py lines 189-212). -/
def expandOne (fs : FakeFS) (inputPath : String) : Except String (List String) :=
  let p := expanduser fs inputPath
  if containsSub "s3://" p then
    if hasWildcard p then
      match (lookupKey p fs.s3globResults).getD [] with
      | [] => .error ("No S3 inputs found for wildcard: " ++ p)
      | globResult => .ok (globResult.map (fun q => "s3://" ++ q))
    else
      if fs.s3ls.contains p then .ok [p]
      else .error ("S3 input not found: " ++ p)
  else
    if hasWildcard p then
      match (lookupKey p fs.globResults).getD [] with
      | [] => .error ("No inputs found for wildcard: " ++ p)
      | globResult => .ok globResult
    else
      if fs.existing.contains p then .ok [p]
      else .error ("Input not found: " ++ p)

/-- Expansion of all input paths in order. -/
def expandAll (fs : FakeFS) : List String → Except String (List String)
  | [] => .ok []
  | p :: rest =>
      match expandOne fs p with
      | .error e => .error e
      | .ok files =>
          match expandAll fs rest with
          | .error e => .error e
          | .ok files' => .ok (files ++ files')

/-- Worker of `dedupFirstSeen`, carrying the set of already-seen paths. -/
def dedupGo (seen : List String) : List String → List String
  | [] => []
  | p :: rest => if seen.contains p then dedupGo seen rest else p :: dedupGo (p :: seen) rest

/-- Order-preserving removal of duplicates (the `seen_input_files` loop;
also used as the iteration order this embedding fixes for Python's
`set(resolved_input_files)`, whose order is unspecified). -/
def dedupFirstSeen : List String → List String := dedupGo []

/-- Lexicographic (code-point) comparison of character lists, the order
Python uses on strings. -/
def strLexLe : List Char → List Char → Bool
  | [], _ => true
  | _ :: _, [] => false
  | a :: as, b :: bs =>
      if a.toNat < b.toNat then true
      else if b.toNat < a.toNat then false
      else strLexLe as bs

/-- Python's `≤` on strings. -/
def stringLe (a b : String) : Bool := strLexLe a.toList b.toList

/-- Stable insertion into a key-sorted list (inserted after equal keys, as
Python's stable `sorted`). -/
def insertSortedBy (key : String → String) (x : String) : List String → List String
  | [] => [x]
  | y :: rest =>
      if stringLe (key y) (key x) then y :: insertSortedBy key x rest
      else x :: y :: rest

/-- Stable sort by key (Python `sorted(..., key=...)`; lexicographic string
order). -/
def sortStringsBy (key : String → String) (l : List String) : List String :=
  l.foldl (fun acc x => insertSortedBy key x acc) []

/-- `_sort_by_name_key`: strip trailing separators, then the basename. -/
def sortByNameKey (p : String) : String :=
  let stripped := String.mk ((p.toList.reverse.dropWhile (fun c => c = '/')).reverse)
  String.mk ((stripped.toList.reverse.takeWhile (fun c => c ≠ '/')).reverse)

/-- The text a `sort_by` value contributes to the invalid-sort-by error
message. -/
def sortByText : SortBy → String
  | .str s => s
  | _ => "a boolean"

/-- The sorting/deduplication phase of `resolve_input_paths` (source:
opener.py lines 214-230). -/
def sortResolved (sortBy : SortBy) (resolvedInputFiles : List String) :
    Except String (List String) :=
  if sortBy.truthy then
    if sortBy = .str "path" ∨ sortBy = .bool true then
      .ok (sortStringsBy id (dedupFirstSeen resolvedInputFiles))
    else if sortBy = .str "name" then
      .ok (sortStringsBy sortByNameKey (dedupFirstSeen resolvedInputFiles))
    else
      .error ("Can sort by path or name only, got " ++ sortByText sortBy)
  else
    .ok (dedupFirstSeen resolvedInputFiles)

/-- `DatasetOpener.resolve_input_paths` (source: opener.py lines 178-230). -/
def resolve_input_paths (fs : FakeFS) (inputPaths : List String) (sortBy : SortBy) :
    Except String (List String) :=
  if inputPaths = [] then .ok []
  else
    match expandAll fs inputPaths with
    | .error e => .error e
    | .ok resolvedInputFiles => sortResolved sortBy resolvedInputFiles

/-! ### batch.py — job status and the observation loop -/

/-- `JobStatus` (batch.py lines 166-225). -/
inductive JobStatus
  | pending
  | running
  | completing
  | completed
  | failed
  | terminated
  | suspended
  | stopped
  | unknown
deriving DecidableEq, Repr

/-- A parsed `squeue` poll result: header keys zipped with the data-line
tokens. -/
abbrev SlurmState := List (String × String)

/-- `SlurmJob._STATUS_MAPPING.get(status_id, JobStatus.UNKNOWN)`. -/
def slurmStatusMapping : Option String → JobStatus
  | some "PD" => .pending
  | some "R" => .running
  | some "CG" => .completing
  | some "CD" => .completed
  | some "F" => .failed
  | some "TO" => .terminated
  | some "S" => .suspended
  | some "ST" => .stopped
  | none => .unknown
  | some _ => .unknown

/-- `SlurmJob.status` (source: batch.py lines 501-507): `unknown` while no
poll has parsed, otherwise the mapping of the `ST` token of the last parsed
state. -/
def slurmStatus : Option SlurmState → JobStatus
  | none => .unknown
  | some state => slurmStatusMapping (lookupKey "ST" state)

/-- `SlurmJob._should_observation_end` (source: batch.py lines 509-515). -/
def slurmShouldEnd (state : SlurmState) : Bool :=
  [JobStatus.completed, .failed, .terminated, .stopped].contains (slurmStatus (some state))

/-- Outcome of running `_observe` against a finite trace of poll results:
whether the job is still being observed when the trace runs out, the last
parsed state, and how many polls were consumed. -/
structure ObserveResult where
  observing : Bool
  state : Option SlurmState
  pollsConsumed : Nat
deriving DecidableEq, Repr

/-- `ObservedBatchJob._observe` (source: batch.py lines 323-338) over a
finite trace of poll results (`none`: the poll output could not be
parsed), carrying `num_null_polls` and `self._state`. -/
def observeGo (shouldEnd : SlurmState → Bool) :
    List (Option SlurmState) → Nat → Option SlurmState → ObserveResult
  | [], _, st => ⟨true, st, 0⟩
  | poll :: rest, numNullPolls, st =>
      match poll with
      | none =>
          if numNullPolls = 3 then ⟨false, st, 1⟩
          else
            let r := observeGo shouldEnd rest (numNullPolls + 1) st
            ⟨r.observing, r.state, r.pollsConsumed + 1⟩
      | some s =>
          if shouldEnd s then ⟨false, some s, 1⟩
          else
            let r := observeGo shouldEnd rest 0 (some s)
            ⟨r.observing, r.state, r.pollsConsumed + 1⟩

/-- Observation from the initial state (`num_null_polls = 0`, no state). -/
def observe (shouldEnd : SlurmState → Bool) (polls : List (Option SlurmState)) :
    ObserveResult :=
  observeGo shouldEnd polls 0 none

/-! ### Timestamps: pandas parsing as used by preprocessor.py and time.py

Timestamps are encoded as the integer
`((((Y*100 + M)*100 + D)*100 + h)*100 + m)*100 + s`; parsing never compares
timestamps across formats in the claims, and the interval-midpoint
operation of the preprocessor is carried out on this encoding. -/

/-- Numeric value of a digit string. -/
def digitsToNat (cs : List Char) : Nat :=
  cs.foldl (fun acc c => acc * 10 + (c.toNat - 48)) 0

/-- Read exactly `w` digits, returning their value and the rest. -/
def readFixedNat (w : Nat) (cs : List Char) : Option (Nat × List Char) :=
  let pre := cs.take w
  if pre.length = w ∧ pre.all Char.isDigit then some (digitsToNat pre, cs.drop w)
  else none

/-- Canonical integer encoding of a civil timestamp. -/
def encodeTimestamp (y m d h mi s : Nat) : Int :=
  (((((y * 100 + m) * 100 + d) * 100 + h) * 100 + mi) * 100 + s : Nat)

/-- Field-range validation as done by `strptime`. -/
def validDateFields (m d h mi s : Nat) : Bool :=
  1 ≤ m && m ≤ 12 && 1 ≤ d && d ≤ 31 && h ≤ 23 && mi ≤ 59 && s ≤ 59

/-- `pd.to_datetime(string, format=fmt)` for the five compact digit formats
of the code base: the whole string must match the format exactly. -/
def strptimeFormat (fmt : String) (str : String) : Option Int :=
  let cs := str.toList
  let widths : Option (List Nat) :=
    if fmt = "%Y%m%d%H%M%S" then some [4, 2, 2, 2, 2, 2]
    else if fmt = "%Y%m%d%H%M" then some [4, 2, 2, 2, 2]
    else if fmt = "%Y%m%d" then some [4, 2, 2]
    else if fmt = "%Y%m" then some [4, 2]
    else if fmt = "%Y" then some [4]
    else none
  match widths with
  | none => none
  | some ws =>
      if cs.length = ws.foldl (· + ·) 0 ∧ cs.all Char.isDigit then
        let fields := (ws.foldl (fun acc w =>
          (acc.1 ++ [digitsToNat (acc.2.take w)], acc.2.drop w)) ([], cs)).1
        let y := fields.getD 0 0
        let m := fields.getD 1 1
        let d := fields.getD 2 1
        let h := fields.getD 3 0
        let mi := fields.getD 4 0
        let s := fields.getD 5 0
        if validDateFields m d h mi s then some (encodeTimestamp y m d h mi s)
        else none
      else none

/-- Expect one specific character. -/
def expectChar (c : Char) : List Char → Option (List Char)
  | [] => none
  | c' :: rest => if c' = c then some rest else none

/-- Time-of-day part `hh:mm:ss` of an ISO 8601 string. -/
def parseIsoTime (cs : List Char) : Option (Nat × Nat × Nat × List Char) :=
  match readFixedNat 2 cs with
  | none => none
  | some (h, cs1) =>
      match expectChar ':' cs1 with
      | none => none
      | some cs2 =>
          match readFixedNat 2 cs2 with
          | none => none
          | some (mi, cs3) =>
              match expectChar ':' cs3 with
              | none => none
              | some cs4 =>
                  match readFixedNat 2 cs4 with
                  | none => none
                  | some (s, cs5) => some (h, mi, s, cs5)

/-- ISO 8601 extended parse `YYYY-MM-DD[{T or space}hh:mm:ss][Z]` of a full
character list. -/
def parseIsoDatetime (cs : List Char) : Option Int :=
  match readFixedNat 4 cs with
  | none => none
  | some (y, cs1) =>
      match expectChar '-' cs1 with
      | none => none
      | some cs2 =>
          match readFixedNat 2 cs2 with
          | none => none
          | some (m, cs3) =>
              match expectChar '-' cs3 with
              | none => none
              | some cs4 =>
                  match readFixedNat 2 cs4 with
                  | none => none
                  | some (d, cs5) =>
                      let tail : Option (Nat × Nat × Nat) :=
                        match cs5 with
                        | [] => some (0, 0, 0)
                        | sep :: cs6 =>
                            if sep = 'T' ∨ sep = ' ' then
                              match parseIsoTime cs6 with
                              | some (h, mi, s, []) => some (h, mi, s)
                              | some (h, mi, s, ['Z']) => some (h, mi, s)
                              | _ => none
                            else none
                      match tail with
                      | none => none
                      | some (h, mi, s) =>
                          if validDateFields m d h mi s then
                            some (encodeTimestamp y m d h mi s)
                          else none

/-- Modelled fragment of `pandas.to_datetime(string)` with inferred format
(`format=None`): the whole string must be a date — a compact digit form of
14, 12, 8, 6 or 4 digits, or an ISO 8601 extended form.  Strings that are
not entirely a date are rejected, as pandas raises on them (the repository
test suite feeds it `'yesterday'` and expects a parse error). -/
def pdInferDatetime (s : String) : Option Int :=
  match strptimeFormat "%Y%m%d%H%M%S" s with
  | some t => some t
  | none =>
  match strptimeFormat "%Y%m%d%H%M" s with
  | some t => some t
  | none =>
  match strptimeFormat "%Y%m%d" s with
  | some t => some t
  | none =>
  match strptimeFormat "%Y%m" s with
  | some t => some t
  | none =>
  match strptimeFormat "%Y" s with
  | some t => some t
  | none => parseIsoDatetime s.toList

/-- `pd.to_datetime(string, format=datetime_format)`. -/
def pdToDatetime (datetimeFormat : Option String) (s : String) : Option Int :=
  match datetimeFormat with
  | some fmt => strptimeFormat fmt s
  | none => pdInferDatetime s

/-- `a + 0.5 * (b - a)` on encoded timestamps (the model's midpoint). -/
def timestampMid (a b : Int) : Int := a + (b - a) / 2

/-! ### time.py — the five-pattern substring matcher -/

/-- Does a run of `k` digits start here? -/
def digitWindow (k : Nat) (cs : List Char) : Bool :=
  (cs.take k).length = k && (cs.take k).all Char.isDigit

/-- `re.compile(k * '\d').search(s)`: the span of the leftmost window of
`k` consecutive digits. -/
def searchDigitRun (k : Nat) : List Char → Nat → Option (Nat × Nat)
  | [], _ => none
  | c :: rest, pos =>
      if digitWindow k (c :: rest) then some (pos, pos + k)
      else searchDigitRun k rest (pos + 1)

/-- `_RE_TO_DATETIME_FORMATS` (source: time.py lines 31-35), as pattern
widths paired with their formats. -/
def RE_TO_DATETIME_FORMATS : List (Nat × String) :=
  [(14, "%Y%m%d%H%M%S"), (12, "%Y%m%d%H%M"), (8, "%Y%m%d"), (6, "%Y%m"), (4, "%Y")]

/-- `find_datetime_format` (source: time.py lines 121-127): the first
pattern, in precedence order, that matches a substring. -/
def find_datetime_format (s : String) : Option (String × Nat × Nat) :=
  (RE_TO_DATETIME_FORMATS.filterMap (fun p =>
    (searchDigitRun p.1 s.toList 0).map (fun span => (p.2, span.1, span.2)))).head?

/-- Substring of `s` from `p1` (inclusive) to `p2` (exclusive). -/
def substring (s : String) (p1 p2 : Nat) : String :=
  String.mk ((s.toList.drop p1).take (p2 - p1))

/-- `get_timestamp_from_string` (source: time.py lines 130-137): the
first-substring pattern parse the specification describes. -/
def get_timestamp_from_string (s : String) : Option Int :=
  match find_datetime_format s with
  | none => none
  | some (fmt, p1, p2) => strptimeFormat fmt (substring s p1 p2)

/-! ### preprocessor.py -/

/-- A variable as the preprocessor sees it: dimension names, shape, the
flattened values, and attributes. -/
structure TVar where
  dims : List String
  shape : List Nat
  flat : List Int
  attrs : List (String × String) := []
deriving DecidableEq, Repr

/-- A dataset as the preprocessor sees it, with coordinates and data
variables kept apart (as `ds.coords` / `ds.data_vars`). -/
structure TDataset where
  coordVars : List (String × TVar) := []
  dataVars : List (String × TVar) := []
  attrs : List (String × String) := []
deriving DecidableEq, Repr

/-- `name in ds` / `ds[name]`: look among all variables. -/
def TDataset.getVar (ds : TDataset) (name : String) : Option TVar :=
  match lookupKey name ds.coordVars with
  | some v => some v
  | none => lookupKey name ds.dataVars

/-- `ds.assign_coords({name: var})`: set (or add, at the end) the
coordinate, removing any data variable of the same name. -/
def TDataset.assignCoord (ds : TDataset) (name : String) (v : TVar) : TDataset :=
  { ds with
    coordVars :=
      if hasKey name ds.coordVars then
        ds.coordVars.map (fun kv => if kv.1 = name then (name, v) else kv)
      else ds.coordVars ++ [(name, v)],
    dataVars := ds.dataVars.filter (fun kv => kv.1 ≠ name) }

/-- `ds.drop_vars(names)`. -/
def TDataset.dropVars (ds : TDataset) (names : List String) : TDataset :=
  { ds with
    coordVars := ds.coordVars.filter (fun kv => ¬ names.contains kv.1),
    dataVars := ds.dataVars.filter (fun kv => ¬ names.contains kv.1) }

/-- `ds.drop_dims(dim)`: remove every variable using the dimension. -/
def TDataset.dropDims (ds : TDataset) (dim : String) : TDataset :=
  { ds with
    coordVars := ds.coordVars.filter (fun kv => ¬ kv.2.dims.contains dim),
    dataVars := ds.dataVars.filter (fun kv => ¬ kv.2.dims.contains dim) }

/-- Is `dim` a dimension of some variable of `ds`? -/
def TDataset.hasDim (ds : TDataset) (dim : String) : Bool :=
  (ds.coordVars ++ ds.dataVars).any (fun kv => kv.2.dims.contains dim)

/-- Concatenation of `n` copies. -/
def replicateJoin (n : Nat) (l : List Int) : List Int :=
  (List.replicate n l).flatten

/-- `ds.expand_dims({dim: var})`: prepend the new dimension (length = the
size of `var`) to every data variable, replicating its contents along it,
and install `var` as the dimension's coordinate. -/
def TDataset.expandDims (ds : TDataset) (dim : String) (var : TVar) : TDataset :=
  let n := var.flat.length
  { ds with
    dataVars := ds.dataVars.map (fun kv =>
      (kv.1, { kv.2 with
        dims := dim :: kv.2.dims,
        shape := n :: kv.2.shape,
        flat := replicateJoin n kv.2.flat })),
    coordVars := ds.coordVars ++ [(dim, var)] }

/-- `parse_timestamp` (source: preprocessor.py lines 145-150): parse with
pandas, turning a failure into a `ConverterError`. -/
def parse_timestamp (datetimeFormat : Option String) (s : String) : Except String Int :=
  match pdToDatetime datetimeFormat s with
  | some t => .ok t
  | none => .error ("Cannot parse timestamp from " ++ s)

/-- `get_time_coverage_from_ds` (source: preprocessor.py lines 125-142):
parse each present bound attribute (a failure raises), default a missing
bound to the present one, and fail when both are missing. -/
def get_time_coverage_from_ds (attrs : List (String × String))
    (datetimeFormat : Option String) : Except String (Int × Int) :=
  match (match lookupKey "time_coverage_start" attrs with
         | none => Except.ok (none : Option Int)
         | some s => (parse_timestamp datetimeFormat s).map some) with
  | .error e => .error e
  | .ok startT =>
      match (match lookupKey "time_coverage_end" attrs with
             | none => Except.ok (none : Option Int)
             | some s => (parse_timestamp datetimeFormat s).map some) with
      | .error e => .error e
      | .ok endT =>
          match startT, endT with
          | none, none =>
              .error "Missing time_coverage_start and/or time_coverage_end in dataset attributes."
          | some a, none => .ok (a, a)
          | none, some b => .ok (b, b)
          | some a, some b => .ok (a, b)

/-- The `time` coordinate synthesized by the preprocessor: one element at
the (model) midpoint of the bounds, with attribute `bounds=time_bnds`. -/
def synthTimeVar (start stop : Int) : TVar :=
  { dims := ["time"], shape := [1], flat := [timestampMid start stop],
    attrs := [("bounds", "time_bnds")] }

/-- The `time_bnds` variable synthesized by the preprocessor: shape (1,2)
over dims `(time, bnds)`. -/
def synthTimeBndsVar (start stop : Int) : TVar :=
  { dims := ["time", "bnds"], shape := [1, 2], flat := [start, stop], attrs := [] }

/-- `ensure_dataset_has_concat_dim` (source: preprocessor.py lines
62-122). -/
def ensure_dataset_has_concat_dim (ds : TDataset) (concatDimName : String)
    (datetimeFormat : Option String := none) : Except String TDataset :=
  match (match ds.getVar concatDimName with
         | some v =>
             if v.dims = [] then
               let promoted : TVar := { v with dims := [concatDimName], shape := [v.flat.length] }
               Except.ok (ds.assignCoord concatDimName promoted, promoted)
             else Except.ok (ds, v)
         | none =>
             if concatDimName = "time" then
               match get_time_coverage_from_ds ds.attrs datetimeFormat with
               | .error e => .error e
               | .ok (start, stop) =>
                   let tv := synthTimeVar start stop
                   let ds1 := (ds.assignCoord "time" tv).assignCoord "time_bnds"
                     (synthTimeBndsVar start stop)
                   Except.ok (ds1, tv)
             else
               .error ("Missing (coordinate) variable " ++ concatDimName ++
                 " for dimension " ++ concatDimName)) with
  | .error e => .error e
  | .ok (ds1, concatDimVar) =>
      let isConcatDimUsed := ds1.dataVars.any (fun kv => kv.2.dims.contains concatDimName)
      if isConcatDimUsed then .ok ds1
      else
        let bndsName := (lookupKey "bounds" concatDimVar.attrs).getD (concatDimName ++ "_bnds")
        let bndsVar := ds1.getVar bndsName
        let ds2 := match bndsVar with
          | some _ => ds1.dropVars [concatDimName, bndsName]
          | none => ds1.dropVars [concatDimName]
        let ds3 := if ds2.hasDim concatDimName then ds2.dropDims concatDimName else ds2
        let ds4 := ds3.expandDims concatDimName concatDimVar
        let ds5 := match bndsVar with
          | some bv => ds4.assignCoord "time_bnds" bv
          | none => ds4
        .ok ds5

/-! ### The claim-side conditions of the slice locator -/

/-- Replace condition of the slice-locator claim at index `j`:
`|v − coord[j]| < ε`. -/
def replCond (t eps : Int) (c : List Int) (j : Nat) : Prop :=
  |t - c.getD j 0| < eps

/-- Insert condition of the slice-locator claim at index `j`:
`v < coord[j]`. -/
def insCond (t : Int) (c : List Int) (j : Nat) : Prop :=
  t < c.getD j 0

/-- Maximum of a list of coordinate values (`[]` gives 0; used only on
non-empty lists). -/
def listMaxInt (l : List Int) : Int := l.foldl max (l.headD 0)

/-- Minimum of a list of coordinate values (`[]` gives 0; used only on
non-empty lists). -/
def listMinInt (l : List Int) : Int := l.foldl min (l.headD 0)

/-! ### Concrete instances used by witnesses and counterexamples -/

/-- A small dataset over the append dimension `time`: coordinate values
`ts`, one data variable `v` with cells `vs`. -/
def mkTimeDs (ts vs : List Int) : XDataset :=
  { vars := [("time", { dims := ["time"], cells := ts, isCoord := true }),
             ("v", { dims := ["time"], cells := vs })] }

/-- A small store with `time` coordinates `ts` and data variable `v`. -/
def mkTimeStore (ts vs : List Int) : ZStore :=
  { arrays := [("time", { dims := ["time"], cells := ts }),
               ("v", { dims := ["time"], cells := vs })] }

/-- Writer configuration with append mode `no_overlap`. -/
def cfgNoOverlap : WriterCfg := { appendMode := .no_overlap }

/-- Writer configuration with append mode `newer`. -/
def cfgNewer : WriterCfg := { appendMode := .newer }

/-- Store of the C3 counterexample: existing `time = [1, 2, 5]`. -/
def storeC3 : ZStore := mkTimeStore [1, 2, 5] [10, 20, 50]

/-- Incoming dataset of the C3 counterexample: `time = [5, 3]`, whose
minimum (3) is below the existing maximum (5) and whose first value equals
the existing last value. -/
def dsC3 : XDataset := mkTimeDs [5, 3] [99, 33]

/-- Store of the C10 counterexample: root attributes
`coordinates=x, b=2`. -/
def storeC10 : ZStore :=
  { arrays := [("time", { dims := ["time"], cells := [1] })],
    attrs := [("coordinates", "x"), ("b", "2")] }

/-- Slice of the C10 counterexample: its own root attribute `a=1`. -/
def sliceC10 : XDataset :=
  { vars := [("time", { dims := ["time"], cells := [2] })],
    attrs := [("a", "1")] }

/-- Variable of the C4 counterexample: three-dimensional, unchunked. -/
def varC4 : CVar := { dims := ["time", "lat", "lon"], sizes := [1, 18, 36] }

/-- Dataset of the C4 counterexample. -/
def dsC4 : CDataset := { vars := [("r_f32", varC4)] }

/-- Processor configuration of the C4 counterexample: the rechunk override
resolves `r_f32` to chunks `(2, 2, 2)`, while the user encoding carries its
own `chunks` entry `(3, 3, 3)`. -/
def cfgC4 : ProcessorCfg :=
  { rechunk := [("r_f32", .scalar (.int 2))],
    outputEncoding := [("r_f32", [("chunks", .chunksVal [3, 3, 3]),
                                  ("compressor", .strVal "None")])] }

/-- Variable of the C4 `TypeError` example: dask-chunked with a single
chunk along its only dimension. -/
def varC4b : CVar := { dims := ["lon"], sizes := [36], chunks := some [[36]] }

/-- Dataset of the C4 `TypeError` example. -/
def dsC4b : CDataset := { vars := [("lon", varC4b)] }

/-- Processor configuration of the C4 `TypeError` example: the `*` default
asks `lon` to inherit the input chunking. -/
def cfgC4b : ProcessorCfg :=
  { rechunk := [("*", .dimMap [("lon", .input)])] }

/-- Dataset of the C7 counterexample: no `time` variable, and a
`time_coverage_start` attribute whose first digit substring matches the
`%Y%m%d` pattern although the whole string is not a date. -/
def dsC7 : TDataset :=
  { dataVars := [("r", { dims := ["lat"], shape := [2], flat := [7, 8] })],
    attrs := [("time_coverage_start", "A20200101")] }

/-- Dataset of the C7 witness: ISO bound attributes (as in the repository's
preprocessor tests). -/
def dsC7w : TDataset :=
  { dataVars := [("r", { dims := ["lat"], shape := [2], flat := [7, 8] })],
    attrs := [("time_coverage_start", "2020-09-08 10:30:00"),
              ("time_coverage_end", "2020-09-08 12:30:00")] }

/-- File system of the C8 counterexample and witness. -/
def fsC8 : FakeFS :=
  { existing := ["a", "b"], globResults := [("*.nc", ["y.nc", "x.nc", "y.nc"])] }

/-- A parsed slurm poll result with `ST = R` (running), for the C9
counterexample. -/
def slurmStateR : SlurmState := [("ST", "R")]

/-- First input of the C1 witness: `time`-bearing `time` and `v` plus a
static `lat` that does not carry the append dimension. -/
def d0C1 : XDataset :=
  { vars := [("time", { dims := ["time"], cells := [1], isCoord := true }),
             ("v", { dims := ["time"], cells := [10] }),
             ("lat", { dims := ["lat"], cells := [7, 8] })] }

/-- Second input of the C1 witness. -/
def d1C1 : XDataset :=
  { vars := [("time", { dims := ["time"], cells := [2], isCoord := true }),
             ("v", { dims := ["time"], cells := [20] }),
             ("lat", { dims := ["lat"], cells := [7, 8] })] }

/-! ## Theorems -/

/-! ### Slice locator (dataslice.find_slice) -/

theorem findSliceScan_ne_create (t eps : Int) :
    ∀ (c : List Int) (i0 : Nat), (findSliceScan t eps c i0).2 ≠ .create := by
  intro c
  induction c with
  | nil => intro i0; simp [findSliceScan]
  | cons v rest ih =>
      intro i0
      simp only [findSliceScan]
      by_cases h1 : |t - v| < eps
      · simp [h1]
      · by_cases h2 : t < v
        · simp [h1, h2]
        · simpa [h1, h2] using ih (i0 + 1)

theorem findSliceScan_append_iff (t eps : Int) (heps : 0 ≤ eps) :
    ∀ (c : List Int) (i0 : Nat),
      findSliceScan t eps c i0 = (-1, .append) ↔ ∀ v ∈ c, eps ≤ t - v := by
  intro c
  induction c with
  | nil => intro i0; simp [findSliceScan]
  | cons v rest ih =>
      intro i0
      simp only [findSliceScan]
      by_cases h1 : |t - v| < eps
      · simp only [if_pos h1]
        constructor
        · intro h
          exact absurd (congrArg Prod.snd h) (by simp)
        · intro h
          have hv := h v (by simp)
          have habs : t - v < eps := (abs_lt.mp h1).2
          omega
      · by_cases h2 : t < v
        · simp only [if_neg h1, if_pos h2]
          constructor
          · intro h
            exact absurd (congrArg Prod.snd h) (by simp)
          · intro h
            have hv := h v (by simp)
            omega
        · have hge : eps ≤ t - v := by
            have := abs_of_nonneg (show (0:Int) ≤ t - v by omega)
            omega
          simp only [if_neg h1, if_neg h2, ih (i0 + 1)]
          constructor
          · intro h w hw
            rcases List.mem_cons.mp hw with hw | hw
            · subst hw; exact hge
            · exact h w hw
          · intro h w hw
            exact h w (List.mem_cons_of_mem _ hw)

theorem findSliceScan_located (t eps : Int) :
    ∀ (c : List Int) (i0 : Nat) (i : Int) (m : UpdateMode),
      findSliceScan t eps c i0 = (i, m) →
      (m = .replace →
        ∃ j, j < c.length ∧ i = ((i0 + j : Nat) : Int) ∧ replCond t eps c j ∧
          ∀ k, k < j → ¬replCond t eps c k ∧ ¬insCond t c k) ∧
      (m = .insert →
        ∃ j, j < c.length ∧ i = ((i0 + j : Nat) : Int) ∧ insCond t c j ∧
          ¬replCond t eps c j ∧
          ∀ k, k < j → ¬replCond t eps c k ∧ ¬insCond t c k) := by
  intro c
  induction c with
  | nil =>
      intro i0 i m h
      simp only [findSliceScan] at h
      cases h
      constructor <;> (intro hm; cases hm)
  | cons v rest ih =>
      intro i0 i m h
      simp only [findSliceScan] at h
      by_cases h1 : |t - v| < eps
      · rw [if_pos h1] at h
        cases h
        constructor
        · intro _
          refine ⟨0, ?_, ?_, ?_, ?_⟩
          · simp
          · simp
          · simpa [replCond] using h1
          · intro k hk; exact absurd hk (Nat.not_lt_zero k)
        · intro hm; cases hm
      · by_cases h2 : t < v
        · rw [if_neg h1, if_pos h2] at h
          cases h
          constructor
          · intro hm; cases hm
          · intro _
            refine ⟨0, ?_, ?_, ?_, ?_, ?_⟩
            · simp
            · simp
            · simpa [insCond] using h2
            · simpa [replCond] using h1
            · intro k hk; exact absurd hk (Nat.not_lt_zero k)
        · rw [if_neg h1, if_neg h2] at h
          have := ih (i0 + 1) i m h
          constructor
          · intro hm
            obtain ⟨j, hj, hi, hc, hall⟩ := this.1 hm
            refine ⟨j + 1, by simpa using Nat.succ_lt_succ hj, ?_, ?_, ?_⟩
            · rw [hi]; omega
            · simpa [replCond, List.getD_cons_succ] using hc
            · intro k hk
              cases k with
              | zero =>
                  exact ⟨by simpa [replCond] using h1, by simpa [insCond] using h2⟩
              | succ k' =>
                  have := hall k' (Nat.lt_of_succ_lt_succ hk)
                  exact ⟨by simpa [replCond, List.getD_cons_succ] using this.1,
                    by simpa [insCond, List.getD_cons_succ] using this.2⟩
          · intro hm
            obtain ⟨j, hj, hi, hc, hnr, hall⟩ := this.2 hm
            refine ⟨j + 1, by simpa using Nat.succ_lt_succ hj, ?_, ?_, ?_, ?_⟩
            · rw [hi]; omega
            · simpa [insCond, List.getD_cons_succ] using hc
            · simpa [replCond, List.getD_cons_succ] using hnr
            · intro k hk
              cases k with
              | zero =>
                  exact ⟨by simpa [replCond] using h1, by simpa [insCond] using h2⟩
              | succ k' =>
                  have := hall k' (Nat.lt_of_succ_lt_succ hk)
                  exact ⟨by simpa [replCond, List.getD_cons_succ] using this.1,
                    by simpa [insCond, List.getD_cons_succ] using this.2⟩

/-- C2.  For every store and target value `v` with tolerance `ε`:
`find_slice` returns `(-1, create)` when the store does not exist;
otherwise it scans the coordinate array in index order, returning
`(i, replace)` at the first index satisfying `|v − coord[i]| < ε`,
`(i, insert)` at the first index satisfying `v < coord[i]` when no replace
match occurred at or before it, and `(-1, append)` exactly when `v` exceeds
every existing coordinate by at least `ε`; it never returns `create` for an
existing store. -/
theorem claim_C2_find_slice (s : ZStore) (t eps : Int) (dim : String)
    (heps : 0 ≤ eps) :
    find_slice none t dim eps = (-1, .create) ∧
    ((find_slice (some s) t dim eps).2 = .replace →
      ∃ j, j < (s.coords dim).length ∧ (find_slice (some s) t dim eps).1 = (j : Int) ∧
        replCond t eps (s.coords dim) j ∧
        ∀ k, k < j → ¬replCond t eps (s.coords dim) k ∧ ¬insCond t (s.coords dim) k) ∧
    ((find_slice (some s) t dim eps).2 = .insert →
      ∃ j, j < (s.coords dim).length ∧ (find_slice (some s) t dim eps).1 = (j : Int) ∧
        insCond t (s.coords dim) j ∧ ¬replCond t eps (s.coords dim) j ∧
        ∀ k, k < j → ¬replCond t eps (s.coords dim) k ∧ ¬insCond t (s.coords dim) k) ∧
    (find_slice (some s) t dim eps = (-1, .append) ↔
      ∀ v ∈ s.coords dim, eps ≤ t - v) ∧
    (find_slice (some s) t dim eps).2 ≠ .create := by
  have hrun : find_slice (some s) t dim eps =
      findSliceScan t eps (s.coords dim) 0 := rfl
  have hloc := findSliceScan_located t eps (s.coords dim) 0
    (findSliceScan t eps (s.coords dim) 0).1 (findSliceScan t eps (s.coords dim) 0).2 rfl
  refine ⟨rfl, ?_, ?_, ?_, ?_⟩
  · intro hm
    rw [hrun] at hm ⊢
    obtain ⟨j, hj, hi, hc, hall⟩ := hloc.1 hm
    exact ⟨j, hj, by simpa using hi, hc, hall⟩
  · intro hm
    rw [hrun] at hm ⊢
    obtain ⟨j, hj, hi, hc, hnr, hall⟩ := hloc.2 hm
    exact ⟨j, hj, by simpa using hi, hc, hnr, hall⟩
  · rw [hrun]
    exact findSliceScan_append_iff t eps heps (s.coords dim) 0
  · rw [hrun]
    exact findSliceScan_ne_create t eps (s.coords dim) 0

/-- Witness for C2, at the store with `time = [10, 20, 30]`, target 20 and
tolerance 1. -/
theorem claim_C2_find_slice_witness :
    (0:Int) ≤ 1 ∧ find_slice none 20 "time" 1 = (-1, .create) := by
  have h := claim_C2_find_slice (mkTimeStore [10, 20, 30] [1, 2, 3]) 20 1 "time" (by decide)
  exact ⟨by decide, h.1⟩

/-! ### Batch observation (C9) -/

/-- C9 counterexample.  A run of exactly three consecutive unparseable
polls does NOT terminate the observation loop (the job is still observed
after them); termination needs a fourth one, and when an earlier poll had
parsed, the status afterwards is that state's status (here `running`), not
`unknown`. -/
theorem claim_C9_counterexample :
    (observe slurmShouldEnd [none, none, none]).observing = true ∧
    (observe slurmShouldEnd [some slurmStateR, none, none, none, none]).observing = false ∧
    (observe slurmShouldEnd [some slurmStateR, none, none, none, none]).state
      = some slurmStateR ∧
    slurmStatus (some slurmStateR) = .running := by
  refine ⟨rfl, rfl, rfl, rfl⟩

/-- C9 (amended).  Observation of a cluster job ends only after a FOURTH
consecutive unparseable poll (the null-poll counter must already be 3);
when no poll ever parsed, the loop ends with no recorded state and the
job's status is reported as `unknown`. -/
theorem claim_C9_observe_null_polls (rest : List (Option SlurmState)) :
    observe slurmShouldEnd (none :: none :: none :: none :: rest) =
      ⟨false, none, 4⟩ ∧
    slurmStatus (observe slurmShouldEnd
      (none :: none :: none :: none :: rest)).state = .unknown := by
  refine ⟨rfl, rfl⟩

/-! ### Association-list lemmas -/

theorem lookupKey_append {α : Type} (k : String) (l1 l2 : List (String × α)) :
    lookupKey k (l1 ++ l2) =
      match lookupKey k l1 with
      | some v => some v
      | none => lookupKey k l2 := by
  induction l1 with
  | nil => simp [lookupKey]
  | cons kv rest ih =>
      by_cases h : kv.1 = k
      · simp [lookupKey, h]
      · simpa [lookupKey, h] using ih

theorem lookupKey_filter_congr {α : Type} (k : String) (p q : String × α → Bool)
    (h : ∀ kv, kv.1 = k → p kv = q kv) (l : List (String × α)) :
    lookupKey k (l.filter p) = lookupKey k (l.filter q) := by
  induction l with
  | nil => rfl
  | cons kv rest ih =>
      simp only [List.filter_cons]
      by_cases hk : kv.1 = k
      · rw [h kv hk]
        cases hq : q kv
        · simpa using ih
        · simp [lookupKey, hk]
      · cases hp : p kv <;> cases hq : q kv <;> simp [lookupKey, hk, ih]

theorem lookupKey_dictUpdate {α : Type} (k : String) (base upd : List (String × α)) :
    lookupKey k (dictUpdate base upd) =
      match lookupKey k base with
      | some v => some ((lookupKey k upd).getD v)
      | none => lookupKey k upd := by
  induction base with
  | nil =>
      have h1 : dictUpdate ([] : List (String × α)) upd = upd := by
        simp only [dictUpdate, List.map_nil, List.nil_append]
        apply List.filter_eq_self.mpr
        intro kv _
        rfl
      rw [h1]
      rfl
  | cons kv rest ih =>
      by_cases hk : kv.1 = k
      · have step1 : lookupKey k (dictUpdate (kv :: rest) upd) =
            some ((lookupKey kv.1 upd).getD kv.2) := by
          simp [dictUpdate, lookupKey, hk]
        rw [step1, hk]
        simp [lookupKey, hk]
      · have hcongr : lookupKey k
            (upd.filter (fun kv2 => (lookupKey kv2.1 (kv :: rest)).isNone)) =
            lookupKey k (upd.filter (fun kv2 => (lookupKey kv2.1 rest).isNone)) := by
          apply lookupKey_filter_congr
          intro kv2 hkv2
          have hne : kv.1 ≠ kv2.1 := by rw [hkv2]; exact hk
          simp [lookupKey, hne]
        have step1 : lookupKey k (dictUpdate (kv :: rest) upd) =
            lookupKey k
              (List.map (fun kv2 => (kv2.1, (lookupKey kv2.1 upd).getD kv2.2)) rest
                ++ upd.filter (fun kv2 => (lookupKey kv2.1 (kv :: rest)).isNone)) := by
          simp [dictUpdate, lookupKey, hk]
        have step2 : lookupKey k (kv :: rest) = lookupKey k rest := by
          simp [lookupKey, hk]
        rw [step1, lookupKey_append, step2, hcongr]
        have hih := ih
        simp only [dictUpdate] at hih
        rw [lookupKey_append] at hih
        exact hih

theorem lookupKey_removeKey_self {α : Type} (k : String) (l : List (String × α)) :
    lookupKey k (removeKey k l) = none := by
  induction l with
  | nil => rfl
  | cons kv rest ih =>
      simp only [removeKey, List.filter_cons]
      by_cases hk : kv.1 = k
      · have hc : (decide (kv.1 ≠ k)) = false := by simp [hk]
        rw [hc]
        simpa [removeKey] using ih
      · have hc : (decide (kv.1 ≠ k)) = true := by simp [hk]
        rw [hc]
        simp only [if_true]
        rw [show lookupKey k (kv :: List.filter (fun kv2 => decide (kv2.1 ≠ k)) rest) =
          lookupKey k (List.filter (fun kv2 => decide (kv2.1 ≠ k)) rest) from by
            simp [lookupKey, hk]]
        simpa [removeKey] using ih

theorem lookupKey_removeKey_ne {α : Type} (k k' : String) (h : k' ≠ k)
    (l : List (String × α)) :
    lookupKey k' (removeKey k l) = lookupKey k' l := by
  induction l with
  | nil => rfl
  | cons kv rest ih =>
      simp only [removeKey, List.filter_cons]
      by_cases hk : kv.1 = k
      · have hc : (decide (kv.1 ≠ k)) = false := by simp [hk]
        rw [hc]
        have hk' : kv.1 ≠ k' := by rw [hk]; exact Ne.symm h
        rw [show lookupKey k' (kv :: rest) = lookupKey k' rest from by simp [lookupKey, hk']]
        simpa [removeKey] using ih
      · have hc : (decide (kv.1 ≠ k)) = true := by simp [hk]
        rw [hc]
        simp only [if_true]
        by_cases hk' : kv.1 = k'
        · simp [lookupKey, hk']
        · rw [show lookupKey k' (kv :: List.filter (fun kv2 => decide (kv2.1 ≠ k)) rest) =
            lookupKey k' (List.filter (fun kv2 => decide (kv2.1 ≠ k)) rest) from by
              simp [lookupKey, hk']]
          rw [show lookupKey k' (kv :: rest) = lookupKey k' rest from by simp [lookupKey, hk']]
          simpa [removeKey] using ih

/-! ### append_slice and the store's root attributes (C10) -/

/-- C10 counterexample.  Appending a slice does NOT leave the store's root
attributes unchanged: a slice-only attribute (`a=1`) is added, and the
store's `coordinates` attribute is popped before the write. -/
theorem claim_C10_counterexample :
    (append_slice storeC10 sliceC10 "time").attrs = [("a", "1"), ("b", "2")] ∧
    storeC10.attrs = [("coordinates", "x"), ("b", "2")] ∧
    (append_slice storeC10 sliceC10 "time").attrs ≠ storeC10.attrs := by
  refine ⟨rfl, rfl, by decide⟩

/-- C10 (amended).  After `append_slice`, the store's root attributes are
the slice's attributes overlaid by the store's (the store's value wins on
every shared key) with `coordinates` removed: every existing store
attribute other than `coordinates` is preserved, `coordinates` is always
absent afterwards, and keys present only on the slice are added with the
slice's value. -/
theorem claim_C10_append_slice_attrs (store : ZStore) (ds : XDataset)
    (dim k : String) :
    (k ≠ "coordinates" → ∀ v, lookupKey k store.attrs = some v →
      lookupKey k (append_slice store ds dim).attrs = some v) ∧
    lookupKey "coordinates" (append_slice store ds dim).attrs = none ∧
    (k ≠ "coordinates" → lookupKey k store.attrs = none →
      lookupKey k (append_slice store ds dim).attrs = lookupKey k ds.attrs) := by
  have hattrs : (append_slice store ds dim).attrs =
      (if hasKey "coordinates" (dictUpdate ds.attrs store.attrs) then
        removeKey "coordinates" (dictUpdate ds.attrs store.attrs)
       else dictUpdate ds.attrs store.attrs) := rfl
  have hmerge := lookupKey_dictUpdate k ds.attrs store.attrs
  have hmergeC := lookupKey_dictUpdate "coordinates" ds.attrs store.attrs
  refine ⟨?_, ?_, ?_⟩
  · intro hkc v hv
    rw [hattrs]
    have hval : lookupKey k (dictUpdate ds.attrs store.attrs) = some v := by
      rw [hmerge, hv]
      cases hds : lookupKey k ds.attrs <;> simp [hds, hv]
    by_cases hc : hasKey "coordinates" (dictUpdate ds.attrs store.attrs)
    · rw [if_pos hc, lookupKey_removeKey_ne _ _ hkc, hval]
    · rw [if_neg hc, hval]
  · rw [hattrs]
    by_cases hc : hasKey "coordinates" (dictUpdate ds.attrs store.attrs)
    · rw [if_pos hc]
      exact lookupKey_removeKey_self _ _
    · rw [if_neg hc]
      simp only [hasKey, Bool.not_eq_true] at hc
      exact Option.not_isSome_iff_eq_none.mp (by simp [hc])
  · intro hkc hv
    rw [hattrs]
    have hval : lookupKey k (dictUpdate ds.attrs store.attrs) = lookupKey k ds.attrs := by
      rw [hmerge, hv]
      cases hds : lookupKey k ds.attrs <;> simp [hds]
    by_cases hc : hasKey "coordinates" (dictUpdate ds.attrs store.attrs)
    · rw [if_pos hc, lookupKey_removeKey_ne _ _ hkc, hval]
    · rw [if_neg hc, hval]

/-- Witness for C10 (amended), at the C10 store and slice with key `b`. -/
theorem claim_C10_append_slice_attrs_witness :
    lookupKey "b" (append_slice storeC10 sliceC10 "time").attrs = some "2" := by
  have h := claim_C10_append_slice_attrs storeC10 sliceC10 "time" "b"
  exact h.1 (by decide) "2" (by decide)

/-! ### Input-path resolution (C8) -/

theorem dedupGo_mem (x : String) :
    ∀ (l seen : List String), x ∈ dedupGo seen l → x ∈ l ∧ x ∉ seen := by
  intro l
  induction l with
  | nil => intro seen h; cases h
  | cons p rest ih =>
      intro seen h
      simp only [dedupGo] at h
      by_cases hc : seen.contains p
      · rw [if_pos hc] at h
        have := ih seen h
        exact ⟨List.mem_cons_of_mem _ this.1, this.2⟩
      · rw [if_neg hc] at h
        rcases List.mem_cons.mp h with h | h
        · subst h
          refine ⟨List.mem_cons_self _ _, ?_⟩
          intro hmem
          exact hc (List.elem_iff.mpr hmem)
        · have := ih (p :: seen) h
          exact ⟨List.mem_cons_of_mem _ this.1,
            fun hmem => this.2 (List.mem_cons_of_mem _ hmem)⟩

theorem dedupGo_nodup : ∀ (l seen : List String), (dedupGo seen l).Nodup := by
  intro l
  induction l with
  | nil => intro seen; exact List.nodup_nil
  | cons p rest ih =>
      intro seen
      simp only [dedupGo]
      by_cases hc : seen.contains p
      · rw [if_pos hc]; exact ih seen
      · rw [if_neg hc]
        refine List.nodup_cons.mpr ⟨?_, ih (p :: seen)⟩
        intro hmem
        exact (dedupGo_mem p rest (p :: seen) hmem).2 (List.mem_cons_self _ _)

theorem dedupGo_length : ∀ (l seen : List String), (dedupGo seen l).length ≤ l.length := by
  intro l
  induction l with
  | nil => intro seen; simp [dedupGo]
  | cons p rest ih =>
      intro seen
      simp only [dedupGo]
      by_cases hc : seen.contains p
      · rw [if_pos hc]
        exact Nat.le_succ_of_le (ih seen)
      · rw [if_neg hc]
        simpa using Nat.succ_le_succ (ih (p :: seen))

theorem strLexLe_total : ∀ as bs : List Char,
    strLexLe as bs = true ∨ strLexLe bs as = true := by
  intro as
  induction as with
  | nil => intro bs; left; rfl
  | cons a as' ih =>
      intro bs
      cases bs with
      | nil => right; rfl
      | cons b bs' =>
          simp only [strLexLe]
          by_cases h1 : a.toNat < b.toNat
          · left; rw [if_pos h1]
          · by_cases h2 : b.toNat < a.toNat
            · right; rw [if_pos h2]
            · rw [if_neg h1, if_neg h2, if_neg h2, if_neg h1]
              exact ih bs'

theorem strLexLe_trans : ∀ as bs cs : List Char,
    strLexLe as bs = true → strLexLe bs cs = true → strLexLe as cs = true := by
  intro as
  induction as with
  | nil => intro bs cs _ _; rfl
  | cons a as' ih =>
      intro bs cs hab hbc
      cases bs with
      | nil => simp [strLexLe] at hab
      | cons b bs' =>
          cases cs with
          | nil => simp [strLexLe] at hbc
          | cons c cs' =>
              simp only [strLexLe] at hab hbc ⊢
              by_cases hab1 : a.toNat < b.toNat
              · by_cases hbc1 : b.toNat < c.toNat
                · have hac : a.toNat < c.toNat := by omega
                  rw [if_pos hac]
                · rw [if_neg hbc1] at hbc
                  by_cases hbc2 : c.toNat < b.toNat
                  · rw [if_pos hbc2] at hbc; cases hbc
                  · have hac : a.toNat < c.toNat := by omega
                    rw [if_pos hac]
              · rw [if_neg hab1] at hab
                by_cases hab2 : b.toNat < a.toNat
                · rw [if_pos hab2] at hab; cases hab
                · rw [if_neg hab2] at hab
                  by_cases hbc1 : b.toNat < c.toNat
                  · have hac : a.toNat < c.toNat := by omega
                    rw [if_pos hac]
                  · rw [if_neg hbc1] at hbc
                    by_cases hbc2 : c.toNat < b.toNat
                    · rw [if_pos hbc2] at hbc; cases hbc
                    · rw [if_neg hbc2] at hbc
                      have h3 : ¬ a.toNat < c.toNat := by omega
                      have h4 : ¬ c.toNat < a.toNat := by omega
                      rw [if_neg h3, if_neg h4]
                      exact ih bs' cs' hab hbc

theorem insertSortedBy_perm (key : String → String) (x : String) :
    ∀ l : List String, (insertSortedBy key x l).Perm (x :: l) := by
  intro l
  induction l with
  | nil => simp [insertSortedBy]
  | cons y rest ih =>
      simp only [insertSortedBy]
      by_cases h : stringLe (key y) (key x) = true
      · rw [if_pos h]
        exact (ih.cons y).trans (List.Perm.swap x y rest)
      · rw [if_neg h]

theorem sortStringsBy_foldl_perm (key : String → String) :
    ∀ (l acc : List String),
      (l.foldl (fun a x => insertSortedBy key x a) acc).Perm (acc ++ l) := by
  intro l
  induction l with
  | nil => intro acc; simp
  | cons x rest ih =>
      intro acc
      simp only [List.foldl_cons]
      refine (ih (insertSortedBy key x acc)).trans ?_
      refine (List.Perm.append_right rest (insertSortedBy_perm key x acc)).trans ?_
      exact List.perm_middle.symm

theorem sortStringsBy_perm (key : String → String) (l : List String) :
    (sortStringsBy key l).Perm l := by
  simpa using sortStringsBy_foldl_perm key l []

theorem insertSortedBy_sorted (key : String → String) (x : String) :
    ∀ l : List String, l.Sorted (fun a b => stringLe (key a) (key b) = true) →
      (insertSortedBy key x l).Sorted (fun a b => stringLe (key a) (key b) = true) := by
  intro l
  induction l with
  | nil => intro _; simp [insertSortedBy]
  | cons y rest ih =>
      intro hs
      rw [List.sorted_cons] at hs
      simp only [insertSortedBy]
      by_cases h : stringLe (key y) (key x) = true
      · rw [if_pos h]
        rw [List.sorted_cons]
        refine ⟨?_, ih hs.2⟩
        intro b hb
        have hmem := (insertSortedBy_perm key x rest).mem_iff.mp hb
        rcases List.mem_cons.mp hmem with hb' | hb'
        · subst hb'; exact h
        · exact hs.1 b hb'
      · rw [if_neg h]
        rw [List.sorted_cons]
        refine ⟨?_, List.sorted_cons.mpr hs⟩
        intro b hb
        have hxy : stringLe (key x) (key y) = true := by
          rcases strLexLe_total (key x).toList (key y).toList with ht | ht
          · exact ht
          · exact absurd ht h
        rcases List.mem_cons.mp hb with hb' | hb'
        · subst hb'; exact hxy
        · exact strLexLe_trans _ _ _ hxy (hs.1 b hb')

theorem sortStringsBy_foldl_sorted (key : String → String) :
    ∀ (l acc : List String), acc.Sorted (fun a b => stringLe (key a) (key b) = true) →
      (l.foldl (fun a x => insertSortedBy key x a) acc).Sorted
        (fun a b => stringLe (key a) (key b) = true) := by
  intro l
  induction l with
  | nil => intro acc h; simpa using h
  | cons x rest ih =>
      intro acc h
      simp only [List.foldl_cons]
      exact ih (insertSortedBy key x acc) (insertSortedBy_sorted key x acc h)

theorem sortStringsBy_sorted (key : String → String) (l : List String) :
    (sortStringsBy key l).Sorted (fun a b => stringLe (key a) (key b) = true) := by
  exact sortStringsBy_foldl_sorted key l [] (by simp)

/-- C8 counterexample.  The truthy `sort_by` value `"zzz"` does not produce
a path-sorted result (as "path (or truthy)" would demand) but an error —
while the falsy value `""`, which is neither `"path"`, `"name"` nor absent,
does not fail but behaves as absent, so "any other sort_by value fails"
also does not hold. -/
theorem claim_C8_counterexample :
    SortBy.truthy (.str "zzz") = true ∧
    resolve_input_paths fsC8 ["a"] (.str "zzz") =
      .error "Can sort by path or name only, got zzz" ∧
    resolve_input_paths fsC8 ["a"] (.str "") = .ok ["a"] := by
  refine ⟨rfl, by decide, by decide⟩

/-- C8 (amended).  Any successful `resolve_input_paths` result is
duplicate-free and no longer than the total number of matches; with
`sort_by` equal to `"path"` or the boolean true it is lexicographically
sorted on the full path, with `"name"` it is sorted on the
trailing-separator-stripped basename, with a falsy `sort_by` (absent,
false, or the empty string) it is the expansion in first-seen order; and
for a non-empty input list any other (truthy) string value cannot succeed
— it fails with the invalid-sort-by error. -/
theorem claim_C8_resolve (fs : FakeFS) (paths : List String) (sortBy : SortBy)
    (files r : List String)
    (hexp : expandAll fs paths = .ok files)
    (hok : resolve_input_paths fs paths sortBy = .ok r) :
    r.Nodup ∧
    r.length ≤ files.length ∧
    ((sortBy = .str "path" ∨ sortBy = .bool true) →
      r.Sorted (fun a b => stringLe a b = true)) ∧
    (sortBy = .str "name" →
      r.Sorted (fun a b => stringLe (sortByNameKey a) (sortByNameKey b) = true)) ∧
    (sortBy.truthy = false → r = dedupFirstSeen files) ∧
    (∀ s, paths ≠ [] → sortBy = .str s → s ≠ "path" → s ≠ "name" → s ≠ "" → False) := by
  by_cases hpaths : paths = []
  · subst hpaths
    have hfiles : files = [] := by
      simpa [expandAll] using hexp.symm
    have hr : r = [] := by
      simpa [resolve_input_paths] using hok.symm
    subst hfiles
    subst hr
    refine ⟨List.nodup_nil, le_refl _, fun _ => by simp, fun _ => by simp,
      fun _ => rfl, fun s hne _ _ _ _ => hne rfl⟩
  · have hok2 := hok
    rw [resolve_input_paths, if_neg hpaths, hexp] at hok2
    have hres : sortResolved sortBy files = .ok r := hok2
    by_cases htruthy : sortBy.truthy = true
    · by_cases hpath : sortBy = .str "path" ∨ sortBy = .bool true
      · rw [sortResolved, if_pos htruthy, if_pos hpath] at hres
        have hr := Except.ok.inj hres
        subst hr
        have hperm := sortStringsBy_perm id (dedupFirstSeen files)
        refine ⟨hperm.symm.nodup (dedupGo_nodup files []), ?_, ?_, ?_, ?_, ?_⟩
        · rw [hperm.length_eq]
          exact dedupGo_length files []
        · intro _
          exact sortStringsBy_sorted id (dedupFirstSeen files)
        · intro hname
          rcases hpath with h | h
          · rw [h] at hname
            exact absurd (SortBy.str.inj hname) (by decide)
          · rw [h] at hname
            exact SortBy.noConfusion hname
        · intro hfalsy
          rw [hfalsy] at htruthy
          cases htruthy
        · intro s _ hs hsp _ _
          rcases hpath with h | h
          · rw [h] at hs
            exact hsp (SortBy.str.inj hs).symm
          · rw [h] at hs
            exact SortBy.noConfusion hs
      · by_cases hname : sortBy = .str "name"
        · rw [sortResolved, if_pos htruthy, if_neg hpath, if_pos hname] at hres
          have hr := Except.ok.inj hres
          subst hr
          have hperm := sortStringsBy_perm sortByNameKey (dedupFirstSeen files)
          refine ⟨hperm.symm.nodup (dedupGo_nodup files []), ?_, ?_, ?_, ?_, ?_⟩
          · rw [hperm.length_eq]
            exact dedupGo_length files []
          · intro h
            exact absurd h hpath
          · intro _
            exact sortStringsBy_sorted sortByNameKey (dedupFirstSeen files)
          · intro hfalsy
            rw [hfalsy] at htruthy
            cases htruthy
          · intro s _ hs _ hsn _
            rw [hname] at hs
            exact hsn (SortBy.str.inj hs).symm
        · rw [sortResolved, if_pos htruthy, if_neg hpath, if_neg hname] at hres
          exact absurd hres (by simp)
    · rw [sortResolved, if_neg htruthy] at hres
      have hr := Except.ok.inj hres
      subst hr
      refine ⟨dedupGo_nodup files [], dedupGo_length files [], ?_, ?_, fun _ => rfl, ?_⟩
      · intro h
        rcases h with h | h <;> rw [h] at htruthy <;> exact absurd (by decide) htruthy
      · intro h
        rw [h] at htruthy
        exact absurd (by decide) htruthy
      · intro s _ hs hsp hsn hse
        rw [hs] at htruthy
        have hserr : s = "" := by
          by_contra hne
          exact htruthy (by simp [SortBy.truthy, hne])
        exact hse hserr

/-- Witness for C8 (amended), at a concrete file system and `"path"`
sorting. -/
theorem claim_C8_resolve_witness :
    (["a", "x.nc", "y.nc"] : List String).Nodup ∧
    (["a", "x.nc", "y.nc"] : List String).length ≤
      (["y.nc", "x.nc", "y.nc", "a"] : List String).length := by
  have h := claim_C8_resolve fsC8 ["*.nc", "a"] (.str "path")
    ["y.nc", "x.nc", "y.nc", "a"] ["a", "x.nc", "y.nc"] (by decide) (by decide)
  exact ⟨h.1, h.2.1⟩

/-! ### Lookup through key-preserving maps -/

theorem lookupKey_eq_find {α : Type} (k : String) :
    ∀ l : List (String × α),
      lookupKey k l = (l.find? (fun kv => decide (kv.1 = k))).map Prod.snd := by
  intro l
  induction l with
  | nil => rfl
  | cons kv rest ih =>
      simp only [lookupKey, List.find?_cons]
      by_cases hk : kv.1 = k
      · simp [hk]
      · simp only [hk, if_neg hk, decide_eq_true_eq]
        rw [if_neg (by simp [hk])]
        exact ih

theorem lookupKey_map_entry {α β : Type} (g : String × α → String × β)
    (hg : ∀ kv, (g kv).1 = kv.1) (k : String) :
    ∀ l : List (String × α),
      lookupKey k (l.map g) =
        (l.find? (fun kv => decide (kv.1 = k))).map (fun kv => (g kv).2) := by
  intro l
  induction l with
  | nil => rfl
  | cons kv rest ih =>
      simp only [List.map_cons, List.find?_cons]
      rcases hgkv : g kv with ⟨gk, gv⟩
      have hgk : gk = kv.1 := by
        have := hg kv
        rw [hgkv] at this
        exact this
      by_cases hk : kv.1 = k
      · simp [lookupKey, hgk, hk, hgkv]
      · simp [lookupKey, hgk, hk, hgkv, ih]

theorem find?_key_eq {α : Type} (k : String) (l : List (String × α)) (kv : String × α)
    (h : l.find? (fun kv => decide (kv.1 = k)) = some kv) : kv.1 = k := by
  have := List.find?_some h
  simpa using this

/-! ### Behaviour of the zarr append on variables -/

theorem zarrAppend_varCells (store : ZStore) (ds : XDataset) (dim name : String) :
    (zarrAppend store ds dim).varCells name =
      match lookupKey name store.arrays with
      | none => []
      | some a =>
          if dim ∈ a.dims then
            match lookupKey name ds.vars with
            | some v => a.cells ++ v.cells
            | none => a.cells
          else a.cells := by
  have hg : ∀ na : String × ZArr,
      ((if dim ∈ na.2.dims then
          match lookupKey na.1 ds.vars with
          | some v => (na.1, { na.2 with cells := na.2.cells ++ v.cells })
          | none => na
        else na) : String × ZArr).1 = na.1 := by
    intro na
    by_cases h : dim ∈ na.2.dims
    · rw [if_pos h]
      cases lookupKey na.1 ds.vars <;> rfl
    · rw [if_neg h]
  have hmap := lookupKey_map_entry
    (fun na => if dim ∈ na.2.dims then
        match lookupKey na.1 ds.vars with
        | some v => (na.1, { na.2 with cells := na.2.cells ++ v.cells })
        | none => na
      else na) hg name store.arrays
  show ((lookupKey name (store.arrays.map _)).map ZArr.cells).getD [] = _
  rw [hmap, lookupKey_eq_find]
  cases hfind : store.arrays.find? (fun kv => decide (kv.1 = name)) with
  | none => rfl
  | some entry =>
      have hkey : entry.1 = name := find?_key_eq name store.arrays entry hfind
      by_cases hd : dim ∈ entry.2.dims
      · cases hv : lookupKey name ds.vars with
        | some v => simp [hd, hkey, hv]
        | none => simp [hd, hkey, hv]
      · simp [hd]

theorem zarrAppend_names (store : ZStore) (ds : XDataset) (dim : String) :
    (zarrAppend store ds dim).arrays.map Prod.fst = store.arrays.map Prod.fst := by
  show (store.arrays.map _).map Prod.fst = store.arrays.map Prod.fst
  rw [List.map_map]
  apply List.map_congr_left
  intro na _
  show (if dim ∈ na.2.dims then _ else na).1 = na.1
  by_cases h : dim ∈ na.2.dims
  · rw [if_pos h]
    cases lookupKey na.1 ds.vars <;> rfl
  · rw [if_neg h]

theorem zarrAppend_dims (store : ZStore) (ds : XDataset) (dim name : String) :
    (lookupKey name (zarrAppend store ds dim).arrays).map ZArr.dims =
      (lookupKey name store.arrays).map ZArr.dims := by
  have hg : ∀ na : String × ZArr,
      ((if dim ∈ na.2.dims then
          match lookupKey na.1 ds.vars with
          | some v => (na.1, { na.2 with cells := na.2.cells ++ v.cells })
          | none => na
        else na) : String × ZArr).1 = na.1 := by
    intro na
    by_cases h : dim ∈ na.2.dims
    · rw [if_pos h]
      cases lookupKey na.1 ds.vars <;> rfl
    · rw [if_neg h]
  show (lookupKey name (store.arrays.map _)).map ZArr.dims = _
  rw [lookupKey_map_entry _ hg, lookupKey_eq_find, Option.map_map, Option.map_map]
  apply congrFun
  apply congrArg
  funext kv
  show (ZArr.dims (if dim ∈ kv.2.dims then _ else kv).2) = kv.2.dims
  by_cases h : dim ∈ kv.2.dims
  · rw [if_pos h]
    cases lookupKey kv.1 ds.vars <;> rfl
  · rw [if_neg h]

theorem removeVariableAttrs_lookup (ds : XDataset) (name : String) :
    lookupKey name (removeVariableAttrs ds).vars =
      (lookupKey name ds.vars).map (fun v => { v with attrs := [] }) := by
  rcases ds with ⟨vars, dsattrs⟩
  simp only [removeVariableAttrs]
  induction vars with
  | nil => rfl
  | cons nv rest ih =>
      simp only [List.map_cons, lookupKey]
      by_cases hk : nv.1 = name
      · simp [hk]
      · simpa [hk] using ih

theorem removeVariableAttrs_names (ds : XDataset) :
    (removeVariableAttrs ds).vars.map Prod.fst = ds.vars.map Prod.fst := by
  show (ds.vars.map _).map Prod.fst = _
  rw [List.map_map]
  rfl

theorem filterAlongDim_lookup (ds : XDataset) (dim : String) (keep : List Bool)
    (name : String) :
    lookupKey name (filterAlongDim ds dim keep).vars =
      (lookupKey name ds.vars).map
        (fun v => if dim ∈ v.dims then { v with cells := maskCells keep v.cells } else v) := by
  have hg : ∀ nv : String × XVar,
      ((if dim ∈ nv.2.dims then (nv.1, { nv.2 with cells := maskCells keep nv.2.cells })
        else nv) : String × XVar).1 = nv.1 := by
    intro nv
    by_cases h : dim ∈ nv.2.dims
    · rw [if_pos h]
    · rw [if_neg h]
  show lookupKey name (ds.vars.map _) = _
  rw [lookupKey_map_entry _ hg, lookupKey_eq_find, Option.map_map]
  apply congrFun
  apply congrArg
  funext kv
  show ((if dim ∈ kv.2.dims then _ else kv) : String × XVar).2 =
    (if dim ∈ kv.2.dims then { kv.2 with cells := maskCells keep kv.2.cells } else kv.2)
  by_cases h : dim ∈ kv.2.dims
  · rw [if_pos h, if_pos h]
  · rw [if_neg h, if_neg h]

theorem maskCells_map_filter (p : Int → Bool) :
    ∀ l : List Int, maskCells (l.map p) l = l.filter p := by
  intro l
  induction l with
  | nil => rfl
  | cons a rest ih =>
      simp only [List.map_cons, maskCells, List.zip_cons_cons, List.filter_cons]
      cases hp : p a
      · simp only [hp, Bool.false_eq_true, if_false]
        simpa [maskCells] using ih
      · simp only [hp, if_true, List.map_cons]
        simpa [maskCells] using ih

theorem monotonic_getLastD_eq_max :
    ∀ l : List Int, monotonicNondecreasing l = true → l ≠ [] →
      l.getLastD 0 = listMaxInt l := by
  intro l
  induction l with
  | nil => intro _ h; exact absurd rfl h
  | cons a rest ih =>
      intro hm _
      cases rest with
      | nil => simp [listMaxInt]
      | cons b rest' =>
          simp only [monotonicNondecreasing, Bool.and_eq_true, decide_eq_true_eq] at hm
          have hab : a ≤ b := hm.1
          have hmono : monotonicNondecreasing (b :: rest') = true := hm.2
          have h1 : (a :: b :: rest').getLastD 0 = (b :: rest').getLastD 0 := by
            rw [List.getLastD_eq_getLast?, List.getLastD_eq_getLast?, List.getLast?_cons_cons]
          have h2 : listMaxInt (a :: b :: rest') = listMaxInt (b :: rest') := by
            simp only [listMaxInt, List.headD_cons, List.foldl_cons]
            rw [max_self, max_eq_right hab, max_self]
          rw [h1, h2]
          exact ih hmono (by simp)

/-! ### Append mode no_overlap (C3) -/

/-- C3 counterexample.  Under `no_overlap`, appending `time = [5, 3]` onto
existing `time = [1, 2, 5]` SUCCEEDS although the maximum existing
coordinate (5) is not strictly less than the minimum new coordinate (3):
the code only compares the last existing against the first new value, and
allows equality. -/
theorem claim_C3_counterexample :
    appendDataset cfgNoOverlap storeC3 dsC3 =
      .ok { arrays := [("time", { dims := ["time"], cells := [1, 2, 5, 5, 3] }),
                       ("v", { dims := ["time"], cells := [10, 20, 50, 99, 33] })] } ∧
    storeC3.coords "time" = [1, 2, 5] ∧
    dsC3.coords "time" = [5, 3] ∧
    ¬ (listMaxInt (storeC3.coords "time") < listMinInt (dsC3.coords "time")) := by
  refine ⟨by decide, by decide, by decide, by decide⟩

/-- C3 (amended).  Under append mode `no_overlap` (existing and new
coordinates non-empty), the append succeeds if and only if the existing
append-dim coordinates are monotone non-decreasing AND the last existing
coordinate is less than or equal to the first new coordinate; when either
condition fails the writer raises before anything is written.  Under the
monotonicity precondition the last existing coordinate is the maximum. -/
theorem claim_C3_no_overlap (cfg : WriterCfg) (store : ZStore) (ds : XDataset)
    (hmode : cfg.appendMode = .no_overlap)
    (hex : store.coords cfg.appendDim ≠ []) :
    ((∃ s', appendDataset cfg store ds = .ok s') ↔
      (monotonicNondecreasing (store.coords cfg.appendDim) = true ∧
        (store.coords cfg.appendDim).getLastD 0 ≤ (ds.coords cfg.appendDim).headD 0)) ∧
    (monotonicNondecreasing (store.coords cfg.appendDim) = true →
      (store.coords cfg.appendDim).getLastD 0 = listMaxInt (store.coords cfg.appendDim)) := by
  constructor
  · by_cases hmono : monotonicNondecreasing (store.coords cfg.appendDim) = true
    · by_cases hle : (store.coords cfg.appendDim).getLastD 0 ≤
          (ds.coords cfg.appendDim).headD 0
      · have hchk : checkAppendAllowed cfg store ds = .ok () := by
          rw [checkAppendAllowed]
          rw [if_neg (fun hc => hc.2 hmono)]
          rw [if_neg (fun hc => absurd hc.2 (not_lt.mpr hle))]
          rw [if_neg (fun hc => by rw [hmode] at hc; exact absurd hc.1 (by decide))]
        constructor
        · intro _
          exact ⟨hmono, hle⟩
        · intro _
          cases happ : appendDataset cfg store ds with
          | ok s' => exact ⟨s', rfl⟩
          | error e =>
              rw [appendDataset, hchk, hmode] at happ
              exact Except.noConfusion happ
      · have hchk : checkAppendAllowed cfg store ds =
            .error "Existing and appended append-dim values may not overlap when using no_overlap." := by
          rw [checkAppendAllowed]
          rw [if_neg (fun hc => hc.2 hmono)]
          rw [if_pos ⟨hmode, not_le.mp hle⟩]
        constructor
        · rintro ⟨s', hs'⟩
          rw [appendDataset, hchk] at hs'
          exact Except.noConfusion hs'
        · rintro ⟨_, h2⟩
          exact absurd h2 hle
    · have hchk : checkAppendAllowed cfg store ds =
          .error "Existing append-dim values must be increasing." := by
        rw [checkAppendAllowed]
        rw [if_pos ⟨by rw [hmode]; decide, hmono⟩]
      constructor
      · rintro ⟨s', hs'⟩
        rw [appendDataset, hchk] at hs'
        exact Except.noConfusion hs'
      · rintro ⟨h1, _⟩
        exact absurd h1 hmono
  · intro hm
    exact monotonic_getLastD_eq_max _ hm hex

/-- Witness for C3 (amended): the append of `time = [6]` onto existing
`time = [1, 2, 5]` succeeds. -/
theorem claim_C3_no_overlap_witness :
    ∃ s', appendDataset cfgNoOverlap (mkTimeStore [1, 2, 5] [10, 20, 50])
      (mkTimeDs [6] [60]) = .ok s' := by
  have h := claim_C3_no_overlap cfgNoOverlap (mkTimeStore [1, 2, 5] [10, 20, 50])
    (mkTimeDs [6] [60]) rfl (by decide)
  exact h.1.mpr (by decide)

theorem zarrAppend_varCells_some (store : ZStore) (ds : XDataset) (dim name : String)
    (a : ZArr) (v : XVar)
    (ha : lookupKey name store.arrays = some a) (had : dim ∈ a.dims)
    (hv : lookupKey name ds.vars = some v) :
    (zarrAppend store ds dim).varCells name = a.cells ++ v.cells := by
  rw [zarrAppend_varCells, ha]
  simp [had, hv]

/-! ### Append mode newer (C6) -/

/-- C6.  Under append mode `newer` with a monotone non-empty existing
coordinate: if the new append-dim coordinates are not monotone
non-decreasing the writer raises before anything is written; otherwise the
write succeeds and every append-dim-bearing variable receives exactly the
new slices whose coordinate is strictly greater than the maximum existing
coordinate (all others are dropped), the coordinate variable in
particular. -/
theorem claim_C6_newer (cfg : WriterCfg) (store : ZStore) (ds : XDataset)
    (hmode : cfg.appendMode = .newer)
    (hexne : store.coords cfg.appendDim ≠ [])
    (hexmono : monotonicNondecreasing (store.coords cfg.appendDim) = true)
    (hkeepall : ∀ nv ∈ ds.vars, nv.2.bytesDtype = false ∨ cfg.appendDim ∈ nv.2.dims) :
    (monotonicNondecreasing (ds.coords cfg.appendDim) = false →
      ∃ e, appendDataset cfg store ds = .error e) ∧
    (monotonicNondecreasing (ds.coords cfg.appendDim) = true →
      ∃ s', appendDataset cfg store ds = .ok s' ∧
        (∀ name a v, lookupKey name store.arrays = some a → cfg.appendDim ∈ a.dims →
          lookupKey name ds.vars = some v → cfg.appendDim ∈ v.dims →
          s'.varCells name = a.cells ++
            maskCells ((ds.coords cfg.appendDim).map
                (fun c => decide (listMaxInt (store.coords cfg.appendDim) < c)))
              v.cells) ∧
        (∀ ta tv, lookupKey cfg.appendDim store.arrays = some ta →
          cfg.appendDim ∈ ta.dims →
          lookupKey cfg.appendDim ds.vars = some tv → cfg.appendDim ∈ tv.dims →
          s'.coords cfg.appendDim = store.coords cfg.appendDim ++
            (ds.coords cfg.appendDim).filter
              (fun c => decide (listMaxInt (store.coords cfg.appendDim) < c)))) := by
  have hmax : (store.coords cfg.appendDim).getLastD 0 =
      listMaxInt (store.coords cfg.appendDim) :=
    monotonic_getLastD_eq_max _ hexmono hexne
  constructor
  · intro hdsmono
    have hchk : checkAppendAllowed cfg store ds =
        .error "Appended append-dim values must be increasing when using newer." := by
      rw [checkAppendAllowed]
      rw [if_neg (fun hc => hc.2 hexmono)]
      rw [if_neg (fun hc => by rw [hmode] at hc; exact absurd hc.1 (by decide))]
      rw [if_pos ⟨hmode, by simp [hdsmono]⟩]
    refine ⟨"Appended append-dim values must be increasing when using newer.", ?_⟩
    rw [appendDataset, hchk]
  · intro hdsmono
    have hchk : checkAppendAllowed cfg store ds = .ok () := by
      rw [checkAppendAllowed]
      rw [if_neg (fun hc => hc.2 hexmono)]
      rw [if_neg (fun hc => by rw [hmode] at hc; exact absurd hc.1 (by decide))]
      rw [if_neg (fun hc => hc.2 hdsmono)]
    have hfil : ds.vars.filter (fun nv =>
        !(!nv.2.isCoord && !(nv.2.dims.contains cfg.appendDim) && nv.2.bytesDtype)) =
        ds.vars := by
      apply List.filter_eq_self.mpr
      intro nv hnv
      rcases hkeepall nv hnv with hb | hd
      · simp [hb]
      · simp
        exact Or.inl (Or.inr hd)
    by_cases hdec : cfg.inputDecodeCf = true
    · have happ : appendDataset cfg store ds =
          .ok (zarrAppend store
            (filterAlongDim ds cfg.appendDim
              ((ds.coords cfg.appendDim).map
                (fun c => decide ((store.coords cfg.appendDim).getLastD 0 < c))))
            cfg.appendDim) := by
        simp only [appendDataset, hchk, hmode, hdec, decodeCf, hfil, if_true]
      refine ⟨_, happ, ?_, ?_⟩
      · intro name a v ha had hv hvd
        have hvf := filterAlongDim_lookup ds cfg.appendDim
          ((ds.coords cfg.appendDim).map
            (fun c => decide ((store.coords cfg.appendDim).getLastD 0 < c))) name
        rw [hv] at hvf
        simp only [Option.map_some'] at hvf
        rw [if_pos hvd] at hvf
        rw [zarrAppend_varCells_some store _ cfg.appendDim name a _ ha had hvf]
        rw [hmax]
      · intro ta tv hta htad htv htvd
        have hco : store.coords cfg.appendDim = ta.cells := by
          simp [ZStore.coords, hta]
        have hdsco : ds.coords cfg.appendDim = tv.cells := by
          simp [XDataset.coords, htv]
        have hvf := filterAlongDim_lookup ds cfg.appendDim
          ((ds.coords cfg.appendDim).map
            (fun c => decide ((store.coords cfg.appendDim).getLastD 0 < c))) cfg.appendDim
        rw [htv] at hvf
        simp only [Option.map_some'] at hvf
        rw [if_pos htvd] at hvf
        have hcells := zarrAppend_varCells_some store _ cfg.appendDim cfg.appendDim ta _
          hta htad hvf
        show (zarrAppend store _ cfg.appendDim).varCells cfg.appendDim = _
        rw [hcells, hmax, hco, hdsco]
        congr 1
        exact maskCells_map_filter _ tv.cells
    · have happ : appendDataset cfg store ds =
          .ok (zarrAppend store
            (filterAlongDim (removeVariableAttrs ds) cfg.appendDim
              (((removeVariableAttrs ds).coords cfg.appendDim).map
                (fun c => decide ((store.coords cfg.appendDim).getLastD 0 < c))))
            cfg.appendDim) := by
        simp only [appendDataset, hchk, hmode, hdec, decodeCf, hfil, if_false,
          Bool.false_eq_true]
      have hcoR : (removeVariableAttrs ds).coords cfg.appendDim =
          ds.coords cfg.appendDim := by
        show ((lookupKey cfg.appendDim (removeVariableAttrs ds).vars).map XVar.cells).getD []
          = ((lookupKey cfg.appendDim ds.vars).map XVar.cells).getD []
        rw [removeVariableAttrs_lookup]
        cases lookupKey cfg.appendDim ds.vars <;> rfl
      refine ⟨_, happ, ?_, ?_⟩
      · intro name a v ha had hv hvd
        have hvR := removeVariableAttrs_lookup ds name
        rw [hv] at hvR
        simp only [Option.map_some'] at hvR
        have hvf := filterAlongDim_lookup (removeVariableAttrs ds) cfg.appendDim
          (((removeVariableAttrs ds).coords cfg.appendDim).map
            (fun c => decide ((store.coords cfg.appendDim).getLastD 0 < c))) name
        rw [hvR] at hvf
        simp only [Option.map_some'] at hvf
        rw [if_pos (show cfg.appendDim ∈ (XVar.dims _) from hvd)] at hvf
        rw [zarrAppend_varCells_some store _ cfg.appendDim name a _ ha had hvf]
        rw [hcoR, hmax]
      · intro ta tv hta htad htv htvd
        have hco : store.coords cfg.appendDim = ta.cells := by
          simp [ZStore.coords, hta]
        have hdsco : ds.coords cfg.appendDim = tv.cells := by
          simp [XDataset.coords, htv]
        have hvR := removeVariableAttrs_lookup ds cfg.appendDim
        rw [htv] at hvR
        simp only [Option.map_some'] at hvR
        have hvf := filterAlongDim_lookup (removeVariableAttrs ds) cfg.appendDim
          (((removeVariableAttrs ds).coords cfg.appendDim).map
            (fun c => decide ((store.coords cfg.appendDim).getLastD 0 < c))) cfg.appendDim
        rw [hvR] at hvf
        simp only [Option.map_some'] at hvf
        rw [if_pos (show cfg.appendDim ∈ (XVar.dims _) from htvd)] at hvf
        have hcells := zarrAppend_varCells_some store _ cfg.appendDim cfg.appendDim ta _
          hta htad hvf
        show (zarrAppend store _ cfg.appendDim).varCells cfg.appendDim = _
        rw [hcells, hcoR, hmax, hco, hdsco]
        congr 1
        exact maskCells_map_filter _ tv.cells

/-- Witness for C6: appending `time = [3, 6, 7]` onto existing
`time = [1, 2, 5]` under `newer` keeps exactly the slices with coordinate
greater than 5. -/
theorem claim_C6_newer_witness :
    ∃ s', appendDataset cfgNewer (mkTimeStore [1, 2, 5] [10, 20, 50])
        (mkTimeDs [3, 6, 7] [33, 66, 77]) = .ok s' ∧
      s'.coords "time" = [1, 2, 5, 6, 7] := by
  have h := claim_C6_newer cfgNewer (mkTimeStore [1, 2, 5] [10, 20, 50])
    (mkTimeDs [3, 6, 7] [33, 66, 77]) rfl (by decide) (by decide) (by decide)
  obtain ⟨s', hok, _, hcoords⟩ := h.2 (by decide)
  refine ⟨s', hok, ?_⟩
  have hc := hcoords { dims := ["time"], cells := [1, 2, 5] }
    { dims := ["time"], cells := [3, 6, 7], isCoord := true }
    (by decide) (by decide) (by decide) (by decide)
  show s'.coords cfgNewer.appendDim = [1, 2, 5, 6, 7]
  rw [hc]
  decide

/-! ### update_slice (C5) -/

theorem collectAppendDimVars_ok (dim : String) :
    ∀ arrays : List (String × ZArr),
      (∀ na ∈ arrays, dim ∈ na.2.dims → na.2.dims.headD "" = dim) →
      collectAppendDimVars dim arrays =
        .ok ((arrays.filter (fun na => decide (dim ∈ na.2.dims))).map Prod.fst,
             (arrays.filter (fun na => decide (dim ∈ na.2.dims))).map
               (fun na => (na.1, removeKey "preferred_chunks" na.2.encoding))) := by
  intro arrays
  induction arrays with
  | nil => intro _; rfl
  | cons na rest ih =>
      intro hfirst
      have hrest := ih (fun nb hb hd => hfirst nb (List.mem_cons_of_mem _ hb) hd)
      simp only [collectAppendDimVars]
      by_cases hd : dim ∈ na.2.dims
      · have hlen : na.2.dims.length ≥ 1 := by
          cases hdm : na.2.dims with
          | nil => rw [hdm] at hd; cases hd
          | cons _ _ => simp [hdm]
        rw [if_pos ⟨hlen, hd⟩]
        rw [if_neg (fun h => h (hfirst na (List.mem_cons_self _ _) hd))]
        rw [hrest]
        simp [List.filter_cons, hd]
      · rw [if_neg (fun hc => hd hc.2)]
        rw [hrest]
        simp [List.filter_cons, hd]

theorem collectAppendDimVars_error (dim : String) :
    ∀ arrays : List (String × ZArr),
      (∃ na ∈ arrays, dim ∈ na.2.dims ∧ na.2.dims.headD "" ≠ dim) →
      ∃ e, collectAppendDimVars dim arrays = .error e := by
  intro arrays
  induction arrays with
  | nil => rintro ⟨na, hmem, _⟩; cases hmem
  | cons na rest ih =>
      rintro ⟨nb, hmem, hd, hne⟩
      rcases List.mem_cons.mp hmem with hb | hb
      · subst hb
        have hlen : nb.2.dims.length ≥ 1 := by
          cases hdm : nb.2.dims with
          | nil => rw [hdm] at hd; cases hd
          | cons _ _ => simp [hdm]
        simp only [collectAppendDimVars]
        rw [if_pos ⟨hlen, hd⟩, if_pos hne]
        exact ⟨_, rfl⟩
      · obtain ⟨e, he⟩ := ih ⟨nb, hb, hd, hne⟩
        simp only [collectAppendDimVars]
        by_cases hhd : na.2.dims.length ≥ 1 ∧ dim ∈ na.2.dims
        · rw [if_pos hhd]
          by_cases hfst : na.2.dims.headD "" ≠ dim
          · exact ⟨_, by rw [if_pos hfst]⟩
          · rw [if_neg hfst, he]
            exact ⟨e, rfl⟩
        · rw [if_neg hhd, he]
          exact ⟨e, rfl⟩

theorem insertShift_set :
    ∀ (i : Nat) (cells : List Int) (x : Int), i ≤ cells.length →
      (insertShiftCells cells i).set i x = cells.take i ++ x :: cells.drop i := by
  intro i
  induction i with
  | zero =>
      intro cells x _
      cases cells with
      | nil => rfl
      | cons c rest =>
          have h0 : insertShiftCells (c :: rest) 0 = c :: c :: rest := by
            show ((c :: rest) ++ [0]).take 1 ++ (((c :: rest) ++ [0]).drop 0).dropLast =
              c :: c :: rest
            rw [List.drop_zero, List.dropLast_concat]
            rfl
          rw [h0]
          rfl
  | succ i ih =>
      intro cells x hle
      cases cells with
      | nil => simp at hle
      | cons c rest =>
          have h1 : insertShiftCells (c :: rest) (i + 1) = c :: insertShiftCells rest i := by
            show ((c :: rest) ++ [0]).take (i + 2) ++
                (((c :: rest) ++ [0]).drop (i + 1)).dropLast = _
            rw [show (c :: rest) ++ [0] = c :: (rest ++ [0]) from rfl]
            rw [List.take_succ_cons, List.drop_succ_cons]
            rfl
          rw [h1, List.set_cons_succ, ih rest x (by simpa using hle)]
          rw [List.take_succ_cons, List.drop_succ_cons, List.cons_append]

theorem mem_eq_of_lookup_nodup {α : Type} :
    ∀ (l : List (String × α)), (l.map Prod.fst).Nodup →
      ∀ (name : String) (a b : α), lookupKey name l = some a → (name, b) ∈ l → b = a := by
  intro l
  induction l with
  | nil => intro _ name a b ha hb; cases hb
  | cons kv rest ih =>
      intro hn name a b ha hb
      rw [List.map_cons, List.nodup_cons] at hn
      rcases List.mem_cons.mp hb with hb' | hb'
      · have hk : kv.1 = name := by rw [← hb']
        rw [lookupKey, if_pos hk] at ha
        have : b = kv.2 := by rw [← hb']
        rw [this, Option.some.inj ha]
      · by_cases hk : kv.1 = name
        · exfalso
          apply hn.1
          rw [hk]
          exact List.mem_map.mpr ⟨(name, b), hb', rfl⟩
        · rw [lookupKey, if_neg hk] at ha
          exact ih hn.2 name a b ha hb'

/-- C5.  `update_slice` with mode `insert`: if the append dimension is not
the first dimension of some append-dim-bearing store variable the
operation fails; otherwise (store variable names unique, insert index in
range) it succeeds, the temporary-store write uses the existing variables'
encodings minus the `preferred_chunks` hint, every append-dim-bearing
variable becomes `old[0..i-1] ++ [new slice] ++ old[i..]`, and variables
not bearing the append dimension are untouched. -/
theorem claim_C5_update_slice_insert (store : ZStore) (ds : XDataset) (dim : String)
    (i : Nat) :
    ((∃ na ∈ store.arrays, dim ∈ na.2.dims ∧ na.2.dims.headD "" ≠ dim) →
      ∃ e, update_slice store i ds "insert" dim = .error e) ∧
    ((∀ na ∈ store.arrays, dim ∈ na.2.dims → na.2.dims.headD "" = dim) →
      (store.arrays.map Prod.fst).Nodup →
      ∃ r, update_slice store i ds "insert" dim = .ok r ∧
        r.tempEncoding = (store.arrays.filter (fun na => decide (dim ∈ na.2.dims))).map
          (fun na => (na.1, removeKey "preferred_chunks" na.2.encoding)) ∧
        (∀ name a v, lookupKey name store.arrays = some a → dim ∈ a.dims →
          i ≤ a.cells.length → lookupKey name ds.vars = some v →
          r.store.varCells name =
            a.cells.take i ++ v.cells.headD 0 :: a.cells.drop i) ∧
        (∀ name a, lookupKey name store.arrays = some a → dim ∉ a.dims →
          r.store.varCells name = a.cells)) := by
  constructor
  · intro hbad
    obtain ⟨e, he⟩ := collectAppendDimVars_error dim store.arrays hbad
    refine ⟨e, ?_⟩
    rw [update_slice, if_neg (fun hc => hc.1 rfl), he]
  · intro hfirst hnodup
    have hcollect := collectAppendDimVars_ok dim store.arrays hfirst
    have hg : ∀ na : String × ZArr,
        (insertCellMutation ds i ((store.arrays.filter
            (fun na => decide (dim ∈ na.2.dims))).map Prod.fst) na).1 = na.1 := by
      intro na
      rw [insertCellMutation]
      by_cases h : na.1 ∈ (store.arrays.filter
          (fun na => decide (dim ∈ na.2.dims))).map Prod.fst
      · rw [if_pos h]
      · rw [if_neg h]
    have hupd : update_slice store i ds "insert" dim =
        .ok { store := { store with arrays := store.arrays.map (insertCellMutation ds i
                ((store.arrays.filter
                  (fun na => decide (dim ∈ na.2.dims))).map Prod.fst)) },
              tempEncoding := (store.arrays.filter
                  (fun na => decide (dim ∈ na.2.dims))).map
                (fun na => (na.1, removeKey "preferred_chunks" na.2.encoding)) } := by
      rw [update_slice, if_neg (fun hc => hc.1 rfl), hcollect]
      rfl
    refine ⟨_, hupd, rfl, ?_, ?_⟩
    · intro name a v ha had hlen hv
      have hain : (name, a) ∈ store.arrays := by
        have ha' := ha
        rw [lookupKey_eq_find] at ha'
        cases hfind : store.arrays.find? (fun kv => decide (kv.1 = name)) with
        | none => rw [hfind] at ha'; cases ha'
        | some e =>
            rw [hfind] at ha'
            have hkey := find?_key_eq name store.arrays e hfind
            have hval : e.2 = a := Option.some.inj ha'
            have hmem := List.mem_of_find?_eq_some hfind
            rw [show (name, a) = e from by
              cases e; simp only at hkey hval; rw [hkey, hval]]
            exact hmem
      have hin : name ∈ (store.arrays.filter
          (fun na => decide (dim ∈ na.2.dims))).map Prod.fst := by
        apply List.mem_map.mpr
        refine ⟨(name, a), ?_, rfl⟩
        apply List.mem_filter.mpr
        exact ⟨hain, by simpa using had⟩
      show ((lookupKey name (store.arrays.map (insertCellMutation ds i
          ((store.arrays.filter
            (fun na => decide (dim ∈ na.2.dims))).map Prod.fst)))).map ZArr.cells).getD []
        = _
      rw [lookupKey_map_entry _ hg]
      rw [lookupKey_eq_find] at ha
      cases hfind : store.arrays.find? (fun kv => decide (kv.1 = name)) with
      | none => rw [hfind] at ha; cases ha
      | some e =>
          rw [hfind] at ha
          have hkey := find?_key_eq name store.arrays e hfind
          have hval : e.2 = a := Option.some.inj ha
          simp only [Option.map_some', Option.getD_some]
          rw [insertCellMutation, if_pos (by rw [hkey]; exact hin)]
          show (insertShiftCells e.2.cells i).set i
            ((((lookupKey e.1 ds.vars).map XVar.cells).getD []).headD 0) = _
          rw [hkey, hval, hv]
          simp only [Option.map_some', Option.getD_some]
          rw [insertShift_set i a.cells _ hlen]
    · intro name a ha hnd
      have hnotin : name ∉ (store.arrays.filter
          (fun na => decide (dim ∈ na.2.dims))).map Prod.fst := by
        intro hmem
        obtain ⟨nb, hnb, hfst⟩ := List.mem_map.mp hmem
        have hnbf := List.mem_filter.mp hnb
        have hba : nb.2 = a := by
          apply mem_eq_of_lookup_nodup store.arrays hnodup name a nb.2 ha
          rw [← hfst]
          exact hnbf.1
        apply hnd
        rw [← hba]
        simpa using hnbf.2
      show ((lookupKey name (store.arrays.map (insertCellMutation ds i
          ((store.arrays.filter
            (fun na => decide (dim ∈ na.2.dims))).map Prod.fst)))).map ZArr.cells).getD []
        = _
      rw [lookupKey_map_entry _ hg]
      rw [lookupKey_eq_find] at ha
      cases hfind : store.arrays.find? (fun kv => decide (kv.1 = name)) with
      | none => rw [hfind] at ha; cases ha
      | some e =>
          rw [hfind] at ha
          have hkey := find?_key_eq name store.arrays e hfind
          have hval : e.2 = a := Option.some.inj ha
          simp only [Option.map_some', Option.getD_some]
          rw [insertCellMutation, if_neg (by rw [hkey]; exact hnotin)]
          rw [hval]

/-- Witness for C5: a store whose variable `v` has dims `[lat, time]` makes
the insert fail, and inserting the slice `time = [15]` at index 1 of a
store with `time = [10, 20, 30]` yields `time = [10, 15, 20, 30]`. -/
theorem claim_C5_update_slice_insert_witness :
    (∃ e, update_slice { arrays := [("v", { dims := ["lat", "time"], cells := [1] })] }
        0 (mkTimeDs [15] [99]) "insert" "time" = .error e) ∧
    ∃ r, update_slice (mkTimeStore [10, 20, 30] [1, 2, 3]) 1
        (mkTimeDs [15] [99]) "insert" "time" = .ok r ∧
      r.store.varCells "time" = [10, 15, 20, 30] ∧
      r.store.varCells "v" = [1, 99, 2, 3] := by
  constructor
  · exact (claim_C5_update_slice_insert
      { arrays := [("v", { dims := ["lat", "time"], cells := [1] })] }
      (mkTimeDs [15] [99]) "time" 0).1
      ⟨("v", { dims := ["lat", "time"], cells := [1] }), by decide⟩
  · obtain ⟨r, hok, henc, hins, hno⟩ := (claim_C5_update_slice_insert
      (mkTimeStore [10, 20, 30] [1, 2, 3]) (mkTimeDs [15] [99]) "time" 1).2
      (by decide) (by decide)
    refine ⟨r, hok, ?_, ?_⟩
    · have h1 := hins "time" { dims := ["time"], cells := [10, 20, 30] }
        { dims := ["time"], cells := [15], isCoord := true }
        (by decide) (by decide) (by decide) (by decide)
      rw [h1]
      rfl
    · have h2 := hins "v" { dims := ["time"], cells := [1, 2, 3] }
        { dims := ["time"], cells := [99] }
        (by decide) (by decide) (by decide) (by decide)
      rw [h2]
      rfl

/-! ### Converter run with append mode all (C1) -/

theorem lookupKey_isSome_iff_mem {α : Type} (k : String) :
    ∀ l : List (String × α), (lookupKey k l).isSome ↔ k ∈ l.map Prod.fst := by
  intro l
  induction l with
  | nil => simp [lookupKey]
  | cons kv rest ih =>
      simp only [lookupKey, List.map_cons, List.mem_cons]
      by_cases hk : kv.1 = k
      · simp [hk]
      · have hk' : ¬ (k = kv.1) := fun h => hk h.symm
        simp [hk, hk', ih]

theorem dsToStore_names (ds : XDataset) (enc : WriteEncoding) (c : Bool) :
    (dsToStore ds enc c).arrays.map Prod.fst = ds.vars.map Prod.fst := by
  show (ds.vars.map _).map Prod.fst = _
  rw [List.map_map]
  rfl

theorem mem_of_lookupKey_some {α : Type} (k : String) (l : List (String × α)) (a : α)
    (ha : lookupKey k l = some a) : (k, a) ∈ l := by
  rw [lookupKey_eq_find] at ha
  cases hfind : l.find? (fun kv => decide (kv.1 = k)) with
  | none => rw [hfind] at ha; cases ha
  | some e =>
      rw [hfind] at ha
      have hkey := find?_key_eq k l e hfind
      have hval : e.2 = a := Option.some.inj ha
      have hmem := List.mem_of_find?_eq_some hfind
      rw [show (k, a) = e from by cases e; simp only at hkey hval; rw [hkey, hval]]
      exact hmem

theorem dsToStore_lookup (ds : XDataset) (enc : WriteEncoding) (c : Bool) (name : String) :
    lookupKey name (dsToStore ds enc c).arrays =
      (lookupKey name ds.vars).map
        (fun v => { dims := v.dims, cells := v.cells,
                    encoding := dictUpdate v.encoding ((lookupKey name enc).getD []) }) := by
  show lookupKey name (ds.vars.map _) = _
  induction ds.vars with
  | nil => rfl
  | cons nv rest ih =>
      simp only [List.map_cons, lookupKey]
      by_cases hk : nv.1 = name
      · simp [hk]
      · simpa [hk] using ih

theorem dsToStore_varCells (ds : XDataset) (enc : WriteEncoding) (c : Bool)
    (name : String) :
    (dsToStore ds enc c).varCells name = ds.varCells name := by
  show ((lookupKey name (dsToStore ds enc c).arrays).map ZArr.cells).getD [] =
    ((lookupKey name ds.vars).map XVar.cells).getD []
  rw [dsToStore_lookup]
  cases lookupKey name ds.vars <;> rfl

theorem zarrAppend_varCells_full (s : ZStore) (ds2 ds : XDataset) (dim name : String)
    (hlook : ∀ n, (lookupKey n ds2.vars).map XVar.cells =
      (lookupKey n ds.vars).map XVar.cells) :
    (∀ a, lookupKey name s.arrays = some a → dim ∈ a.dims →
      (zarrAppend s ds2 dim).varCells name = a.cells ++ ds.varCells name) ∧
    (∀ a, lookupKey name s.arrays = some a → dim ∉ a.dims →
      (zarrAppend s ds2 dim).varCells name = a.cells) ∧
    (lookupKey name s.arrays = none → (zarrAppend s ds2 dim).varCells name = []) := by
  refine ⟨?_, ?_, ?_⟩
  · intro a ha had
    cases hv2 : lookupKey name ds2.vars with
    | some v2 =>
        rw [zarrAppend_varCells_some s ds2 dim name a v2 ha had hv2]
        have hl := hlook name
        rw [hv2] at hl
        show a.cells ++ v2.cells = a.cells ++ ((lookupKey name ds.vars).map XVar.cells).getD []
        rw [← hl]
        rfl
    | none =>
        have hl := hlook name
        rw [hv2] at hl
        have hvn : lookupKey name ds.vars = none := by
          cases hv : lookupKey name ds.vars with
          | none => rfl
          | some v => rw [hv] at hl; cases hl
        rw [zarrAppend_varCells, ha]
        simp [had, hv2, XDataset.varCells, hvn]
  · intro a ha hnd
    rw [zarrAppend_varCells, ha]
    simp [hnd]
  · intro ha
    rw [zarrAppend_varCells, ha]

theorem appendDataset_all (cfg : WriterCfg) (s : ZStore) (ds : XDataset)
    (hmode : cfg.appendMode = .all)
    (hkeep : ∀ nv ∈ ds.vars, nv.2.bytesDtype = false ∨ cfg.appendDim ∈ nv.2.dims) :
    ∃ s', appendDataset cfg s ds = .ok s' ∧
      s'.arrays.map Prod.fst = s.arrays.map Prod.fst ∧
      (∀ name, (lookupKey name s'.arrays).map ZArr.dims =
        (lookupKey name s.arrays).map ZArr.dims) ∧
      (∀ name a, lookupKey name s.arrays = some a → cfg.appendDim ∈ a.dims →
        s'.varCells name = a.cells ++ ds.varCells name) ∧
      (∀ name a, lookupKey name s.arrays = some a → cfg.appendDim ∉ a.dims →
        s'.varCells name = a.cells) ∧
      (∀ name, lookupKey name s.arrays = none → s'.varCells name = []) := by
  have hchk : checkAppendAllowed cfg s ds = .ok () := by
    rw [checkAppendAllowed]
    rw [if_neg (fun hc => hc.1 hmode)]
    rw [if_neg (fun hc => by rw [hmode] at hc; exact absurd hc.1 (by decide))]
    rw [if_neg (fun hc => by rw [hmode] at hc; exact absurd hc.1 (by decide))]
  have hfil : ds.vars.filter (fun nv =>
      !(!nv.2.isCoord && !(nv.2.dims.contains cfg.appendDim) && nv.2.bytesDtype)) =
      ds.vars := by
    apply List.filter_eq_self.mpr
    intro nv hnv
    rcases hkeep nv hnv with hb | hd
    · simp [hb]
    · simp
      exact Or.inl (Or.inr hd)
  by_cases hdec : cfg.inputDecodeCf = true
  · have happ : appendDataset cfg s ds = .ok (zarrAppend s ds cfg.appendDim) := by
      simp only [appendDataset, hchk, hmode, hdec, decodeCf, hfil, if_true]
    refine ⟨_, happ, zarrAppend_names _ _ _, fun name => zarrAppend_dims _ _ _ name,
      ?_, ?_, ?_⟩
    · intro name a ha had
      exact (zarrAppend_varCells_full s ds ds cfg.appendDim name (fun _ => rfl)).1 a ha had
    · intro name a ha hnd
      exact (zarrAppend_varCells_full s ds ds cfg.appendDim name
        (fun _ => rfl)).2.1 a ha hnd
    · intro name ha
      exact (zarrAppend_varCells_full s ds ds cfg.appendDim name (fun _ => rfl)).2.2 ha
  · have happ : appendDataset cfg s ds =
        .ok (zarrAppend s (removeVariableAttrs ds) cfg.appendDim) := by
      simp only [appendDataset, hchk, hmode, hdec, decodeCf, hfil, if_false,
        Bool.false_eq_true]
    have hlook : ∀ n, (lookupKey n (removeVariableAttrs ds).vars).map XVar.cells =
        (lookupKey n ds.vars).map XVar.cells := by
      intro n
      rw [removeVariableAttrs_lookup]
      cases lookupKey n ds.vars <;> rfl
    refine ⟨_, happ, zarrAppend_names _ _ _, fun name => zarrAppend_dims _ _ _ name,
      ?_, ?_, ?_⟩
    · intro name a ha had
      exact (zarrAppend_varCells_full s (removeVariableAttrs ds) ds cfg.appendDim name
        hlook).1 a ha had
    · intro name a ha hnd
      exact (zarrAppend_varCells_full s (removeVariableAttrs ds) ds cfg.appendDim name
        hlook).2.1 a ha hnd
    · intro name ha
      exact (zarrAppend_varCells_full s (removeVariableAttrs ds) ds cfg.appendDim name
        hlook).2.2 ha

theorem converterLoop_append_all (cfg : WriterCfg) (hmode : cfg.appendMode = .all) :
    ∀ (rest : List (XDataset × WriteEncoding)) (s : ZStore),
      (∀ de ∈ rest, ∀ nv ∈ de.1.vars,
        nv.2.bytesDtype = false ∨ cfg.appendDim ∈ nv.2.dims) →
      ∃ s', converterLoop cfg rest
          { store := some s, ensured := true, pathExists := true } (some true) =
          .ok ({ store := some s', ensured := true, pathExists := true },
            rest.map (fun _ => .append)) ∧
        (∀ name a, lookupKey name s.arrays = some a → cfg.appendDim ∈ a.dims →
          s'.varCells name =
            s.varCells name ++ (rest.map (fun de => de.1.varCells name)).flatten) ∧
        (∀ name a, lookupKey name s.arrays = some a → cfg.appendDim ∉ a.dims →
          s'.varCells name = s.varCells name) := by
  intro rest
  induction rest with
  | nil =>
      intro s _
      exact ⟨s, rfl, fun name a _ _ => by simp, fun name a _ _ => rfl⟩
  | cons de rest' ih =>
      intro s hkeep
      obtain ⟨s₁, happ, hn₁, hd₁, hsome₁, hnodim₁, hnone₁⟩ :=
        appendDataset_all cfg s de.1 hmode (hkeep de (List.mem_cons_self _ _))
      have hwd : writeDataset cfg { store := some s, ensured := true, pathExists := true }
          de.1 de.2 (some true) =
          .ok ({ store := some s₁, ensured := true, pathExists := true }, .append) := by
        simp [writeDataset, ensureStore, happ]
      have hpres : ∀ name a, lookupKey name s.arrays = some a →
          ∃ a₁, lookupKey name s₁.arrays = some a₁ ∧ a₁.dims = a.dims := by
        intro name a ha
        have hd := hd₁ name
        rw [ha] at hd
        cases hb : lookupKey name s₁.arrays with
        | none => rw [hb] at hd; cases hd
        | some b =>
            rw [hb] at hd
            simp only [Option.map_some'] at hd
            exact ⟨b, rfl, Option.some.inj hd⟩
      obtain ⟨s', hloop, hcellsIn, hcellsOut⟩ :=
        ih s₁ (fun d hd => hkeep d (List.mem_cons_of_mem _ hd))
      refine ⟨s', ?_, ?_, ?_⟩
      · rw [converterLoop]
        simp only [hwd, hloop, List.map_cons]
      · intro name a ha had
        obtain ⟨a₁, ha₁, hda₁⟩ := hpres name a ha
        have hstep : s₁.varCells name = s.varCells name ++ de.1.varCells name := by
          rw [hsome₁ name a ha had]
          show _ = ((lookupKey name s.arrays).map ZArr.cells).getD [] ++ _
          rw [ha]
          rfl
        have h := hcellsIn name a₁ ha₁ (by rw [hda₁]; exact had)
        rw [h, hstep, List.map_cons, List.flatten_cons, List.append_assoc]
      · intro name a ha hnd
        obtain ⟨a₁, ha₁, hda₁⟩ := hpres name a ha
        have hstep : s₁.varCells name = s.varCells name := by
          rw [hnodim₁ name a ha hnd]
          show a.cells = ((lookupKey name s.arrays).map ZArr.cells).getD []
          rw [ha]
          rfl
        have h := hcellsOut name a₁ ha₁ (by rw [hda₁]; exact hnd)
        rw [h, hstep]

/-- C1.  A converter run under the default append mode `all` with no
pre-existing store, over a non-empty input sequence none of whose later
datasets carries a byte-string data variable lacking the append dimension
(which the writer would drop before appending), writes the first dataset
with a create and every later one with an append; afterwards, for each
variable of the first dataset: one bearing the append dimension holds the
concatenation of the inputs' slices in iteration order, and one not
bearing it keeps the first dataset's values. -/
theorem claim_C1_converter_concat (cfg : WriterCfg) (d0 : XDataset) (e0 : WriteEncoding)
    (rest : List (XDataset × WriteEncoding))
    (hmode : cfg.appendMode = .all)
    (hkeep : ∀ de ∈ rest, ∀ nv ∈ de.1.vars,
      nv.2.bytesDtype = false ∨ cfg.appendDim ∈ nv.2.dims) :
    ∃ st, converterRun cfg ((d0, e0) :: rest) none =
        .ok (st, .create :: rest.map (fun _ => .append)) ∧
      ∃ s', st.store = some s' ∧
        ∀ name v0, lookupKey name d0.vars = some v0 →
          (cfg.appendDim ∈ v0.dims →
            s'.varCells name =
              (((d0, e0) :: rest).map (fun de => de.1.varCells name)).flatten) ∧
          (cfg.appendDim ∉ v0.dims → s'.varCells name = v0.cells) := by
  have hwd0 : writeDataset cfg { store := none } d0 e0 none =
      .ok ({ store := some (dsToStore d0 e0 cfg.consolidated),
             ensured := true, pathExists := true }, .create) := by
    simp [writeDataset, ensureStore, createDataset]
  obtain ⟨s', hloop, hcellsIn, hcellsOut⟩ := converterLoop_append_all cfg hmode rest
    (dsToStore d0 e0 cfg.consolidated) hkeep
  refine ⟨{ store := some s', ensured := true, pathExists := true }, ?_, s', rfl, ?_⟩
  · show converterLoop cfg ((d0, e0) :: rest) { store := none } none = _
    rw [converterLoop]
    simp only [hwd0, hloop]
  · intro name v0 hv0
    have hS0 : lookupKey name (dsToStore d0 e0 cfg.consolidated).arrays =
        some { dims := v0.dims, cells := v0.cells,
               encoding := dictUpdate v0.encoding ((lookupKey name e0).getD []) } := by
      rw [dsToStore_lookup, hv0]
      rfl
    constructor
    · intro hin
      have h := hcellsIn name _ hS0 hin
      rw [h, dsToStore_varCells, List.map_cons, List.flatten_cons]
    · intro hnin
      have h := hcellsOut name _ hS0 hnin
      rw [h, dsToStore_varCells]
      show ((lookupKey name d0.vars).map XVar.cells).getD [] = v0.cells
      rw [hv0]
      rfl

/-- Witness for C1: converting `time = [1]` then `time = [2]` into a fresh
store creates then appends, ending with `time = [1, 2]`, `v = [10, 20]`,
and the static `lat` variable kept at its first-dataset values. -/
theorem claim_C1_converter_concat_witness :
    ∃ st, converterRun {} [(d0C1, []), (d1C1, [])] none =
        .ok (st, [.create, .append]) ∧
      ∃ s', st.store = some s' ∧
        s'.varCells "time" = [1, 2] ∧ s'.varCells "v" = [10, 20] ∧
        s'.varCells "lat" = [7, 8] := by
  obtain ⟨st, hrun, s', hst, hvars⟩ := claim_C1_converter_concat {} d0C1 []
    [(d1C1, [])] rfl (by decide)
  refine ⟨st, hrun, s', hst, ?_, ?_, ?_⟩
  · have h := (hvars "time" { dims := ["time"], cells := [1], isCoord := true }
      (by decide)).1 (by decide)
    rw [h]
    decide
  · have h := (hvars "v" { dims := ["time"], cells := [10] } (by decide)).1 (by decide)
    rw [h]
    decide
  · have h := (hvars "lat" { dims := ["lat"], cells := [7, 8] } (by decide)).2 (by decide)
    rw [h]

/-! ### Processor rechunking and encoding merge (C4) -/

theorem dictUpdate_nil {α : Type} : ∀ base : List (String × α), dictUpdate base [] = base := by
  intro base
  induction base with
  | nil => rfl
  | cons kv rest ih =>
      simp only [dictUpdate, List.map_cons, List.filter_nil, List.append_nil] at *
      rw [ih]
      rfl

theorem resolveDimChunkSize_ok (v : CVar) (i : Nat) (d : String) (cv : ChunkVal)
    (h : cv.isOther = false) (hc : chunkValCrashes v i cv = false) :
    resolveDimChunkSize v i d cv = .ok (specResolvedChunkSize v i d cv) := by
  cases cv with
  | int n => rfl
  | null => rfl
  | input =>
      rw [resolveDimChunkSize, specResolvedChunkSize]
      rw [chunkValCrashes] at hc
      cases hch : v.chunks with
      | none => rfl
      | some chs =>
          simp only [hch] at hc
          have hlen : (chs.getD i []).length ≥ 2 := by
            have h2 := of_decide_eq_false hc
            omega
          simp only [if_pos hlen]
  | other s => cases h

theorem resolveDimChunkSize_error (v : CVar) (i : Nat) (d : String) (cv : ChunkVal)
    (h : cv.isOther = true ∨ chunkValCrashes v i cv = true) :
    ∃ e, resolveDimChunkSize v i d cv = .error e := by
  cases cv with
  | other s => exact ⟨_, rfl⟩
  | int n => rcases h with h | h <;> exact absurd h Bool.false_ne_true
  | null => rcases h with h | h <;> exact absurd h Bool.false_ne_true
  | input =>
      rcases h with h | h
      · exact absurd h Bool.false_ne_true
      · rw [chunkValCrashes] at h
        rw [resolveDimChunkSize]
        cases hch : v.chunks with
        | none =>
            simp only [hch] at h
            exact absurd h Bool.false_ne_true
        | some chs =>
            simp only [hch] at h
            have hlt := of_decide_eq_true h
            refine ⟨"TypeError: 'int' object is not iterable", ?_⟩
            simp only [if_neg (show ¬ ((chs.getD i []).length ≥ 2) from by omega)]

theorem resolveChunksGo_ok (v : CVar) (dcs : List (String × ChunkVal)) :
    ∀ (dims : List String) (i : Nat),
      (∀ p ∈ dims.enumFrom i, ((lookupKey p.2 dcs).getD .input).isOther = false ∧
        chunkValCrashes v p.1 ((lookupKey p.2 dcs).getD .input) = false) →
      resolveChunksGo v dcs dims i =
        .ok ((dims.enumFrom i).map (fun p =>
          specResolvedChunkSize v p.1 p.2 ((lookupKey p.2 dcs).getD .input))) := by
  intro dims
  induction dims with
  | nil => intro i _; rfl
  | cons d rest ih =>
      intro i hno
      have hhd := hno (i, d) (by rw [List.enumFrom]; exact List.mem_cons_self _ _)
      simp only [resolveChunksGo,
        resolveDimChunkSize_ok v i d _ hhd.1 hhd.2,
        ih (i + 1) (fun p hp => hno p (by rw [List.enumFrom]; exact List.mem_cons_of_mem _ hp)),
        List.enumFrom, List.map_cons]

theorem resolveChunksGo_error (v : CVar) (dcs : List (String × ChunkVal)) :
    ∀ (dims : List String) (i : Nat),
      (∃ p ∈ dims.enumFrom i, ((lookupKey p.2 dcs).getD .input).isOther = true ∨
        chunkValCrashes v p.1 ((lookupKey p.2 dcs).getD .input) = true) →
      ∃ e, resolveChunksGo v dcs dims i = .error e := by
  intro dims
  induction dims with
  | nil => rintro i ⟨p, hp, _⟩; cases hp
  | cons d rest ih =>
      rintro i ⟨p, hp, hbad⟩
      by_cases hhead : ∃ e,
          resolveDimChunkSize v i d ((lookupKey d dcs).getD .input) = .error e
      · obtain ⟨e, he⟩ := hhead
        refine ⟨e, ?_⟩
        rw [resolveChunksGo, he]
      · have hp' : p ∈ rest.enumFrom (i + 1) := by
          rw [List.enumFrom] at hp
          rcases List.mem_cons.mp hp with h | h
          · exfalso
            subst h
            exact hhead (resolveDimChunkSize_error v i d _ hbad)
          · exact h
        have hok : ∃ c,
            resolveDimChunkSize v i d ((lookupKey d dcs).getD .input) = .ok c := by
          cases hr : resolveDimChunkSize v i d ((lookupKey d dcs).getD .input) with
          | error e => exact absurd ⟨e, hr⟩ hhead
          | ok c => exact ⟨c, rfl⟩
        obtain ⟨c, hc⟩ := hok
        obtain ⟨e, he⟩ := ih (i + 1) ⟨p, hp', hbad⟩
        refine ⟨e, ?_⟩
        simp only [resolveChunksGo, hc, he]

theorem rechunkDataset_error (rechunk : List (String × RechunkEntry)) :
    ∀ vars : List (String × CVar),
      (∃ nv ∈ vars, ∃ e, resolveVarChunks rechunk nv.2 nv.1 = .error e) →
      ∃ e, rechunkDataset rechunk vars = .error e := by
  intro vars
  induction vars with
  | nil => rintro ⟨nv, hmem, _⟩; cases hmem
  | cons nv0 rest ih =>
      obtain ⟨n0, v0⟩ := nv0
      rintro ⟨nv, hmem, e, he⟩
      rcases List.mem_cons.mp hmem with h | h
      · have hres : resolveVarChunks rechunk v0 n0 = .error e := by
          rw [h] at he; exact he
        refine ⟨e, ?_⟩
        rw [rechunkDataset, hres]
      · cases hr0 : resolveVarChunks rechunk v0 n0 with
        | error e0 =>
            refine ⟨e0, ?_⟩
            rw [rechunkDataset, hr0]
        | ok cs0 =>
            obtain ⟨e1, he1⟩ := ih ⟨nv, h, e, he⟩
            refine ⟨e1, ?_⟩
            simp only [rechunkDataset, hr0, he1]

theorem rechunkDataset_ok (rechunk : List (String × RechunkEntry)) :
    ∀ vars : List (String × CVar),
      (∀ nv ∈ vars, ∃ cs, resolveVarChunks rechunk nv.2 nv.1 = .ok cs) →
      ∃ res, rechunkDataset rechunk vars = .ok res := by
  intro vars
  induction vars with
  | nil => intro _; exact ⟨([], []), rfl⟩
  | cons nv0 rest ih =>
      obtain ⟨n0, v0⟩ := nv0
      intro hall
      obtain ⟨cs0, hcs0⟩ := hall (n0, v0) (List.mem_cons_self _ _)
      obtain ⟨⟨vars', enc'⟩, hres⟩ := ih (fun nv hnv => hall nv (List.mem_cons_of_mem _ hnv))
      cases hstep : rechunkDataset rechunk ((n0, v0) :: rest) with
      | ok res => exact ⟨res, rfl⟩
      | error e =>
          exfalso
          by_cases hne : cs0 ≠ []
          · simp only [rechunkDataset, hcs0, hres, if_pos hne] at hstep
            exact Except.noConfusion hstep
          · simp only [rechunkDataset, hcs0, hres, if_neg hne] at hstep
            exact Except.noConfusion hstep

theorem rechunkDataset_names (rechunk : List (String × RechunkEntry)) :
    ∀ (vars vars' : List (String × CVar)) (enc : DsEncoding),
      rechunkDataset rechunk vars = .ok (vars', enc) →
      vars'.map Prod.fst = vars.map Prod.fst := by
  intro vars
  induction vars with
  | nil =>
      intro vars' enc h
      simp only [rechunkDataset, Except.ok.injEq, Prod.mk.injEq] at h
      rw [← h.1]
  | cons nv0 rest ih =>
      obtain ⟨n0, v0⟩ := nv0
      intro vars' enc h
      cases hcs : resolveVarChunks rechunk v0 n0 with
      | error e =>
          rw [rechunkDataset, hcs] at h
          exact Except.noConfusion h
      | ok cs =>
          cases hres : rechunkDataset rechunk rest with
          | error e =>
              rw [rechunkDataset, hcs, hres] at h
              exact Except.noConfusion h
          | ok p =>
              obtain ⟨vars'', enc''⟩ := p
              by_cases hne : cs ≠ []
              · simp only [rechunkDataset, hcs, hres, if_pos hne, Except.ok.injEq,
                  Prod.mk.injEq] at h
                rw [← h.1, List.map_cons, List.map_cons, ih vars'' enc'' hres]
              · simp only [rechunkDataset, hcs, hres, if_neg hne, Except.ok.injEq,
                  Prod.mk.injEq] at h
                rw [← h.1, List.map_cons, List.map_cons, ih vars'' enc'' hres]

theorem rechunkDataset_enc_lookup (rechunk : List (String × RechunkEntry)) :
    ∀ (vars : List (String × CVar)) (name : String) (v : CVar) (cs : List Int)
      (vars' : List (String × CVar)) (enc : DsEncoding),
      lookupKey name vars = some v →
      resolveVarChunks rechunk v name = .ok cs → cs ≠ [] →
      rechunkDataset rechunk vars = .ok (vars', enc) →
      lookupKey name enc = some [("chunks", EncVal.chunksVal cs)] := by
  intro vars
  induction vars with
  | nil => intro name v cs vars' enc hv; cases hv
  | cons nv0 rest ih =>
      obtain ⟨n0, v0⟩ := nv0
      intro name v cs vars' enc hv hres hne h
      by_cases hk : n0 = name
      · subst hk
        have hv0 : v0 = v := by
          rw [lookupKey, if_pos rfl] at hv
          exact Option.some.inj hv
        subst hv0
        cases hrest : rechunkDataset rechunk rest with
        | error e =>
            simp only [rechunkDataset, hres, hrest] at h
            exact Except.noConfusion h
        | ok p =>
            obtain ⟨vars'', enc''⟩ := p
            simp only [rechunkDataset, hres, hrest, if_pos hne, Except.ok.injEq,
              Prod.mk.injEq] at h
            rw [← h.2, lookupKey, if_pos rfl]
      · rw [lookupKey, if_neg hk] at hv
        cases hcs0 : resolveVarChunks rechunk v0 n0 with
        | error e =>
            rw [rechunkDataset, hcs0] at h
            exact Except.noConfusion h
        | ok cs0 =>
            cases hrest : rechunkDataset rechunk rest with
            | error e =>
                simp only [rechunkDataset, hcs0, hrest] at h
                exact Except.noConfusion h
            | ok p =>
                obtain ⟨vars'', enc''⟩ := p
                have hrec := ih name v cs vars'' enc'' hv hres hne hrest
                by_cases hne0 : cs0 ≠ []
                · simp only [rechunkDataset, hcs0, hrest, if_pos hne0, Except.ok.injEq,
                    Prod.mk.injEq] at h
                  rw [← h.2, lookupKey, if_neg hk]
                  exact hrec
                · simp only [rechunkDataset, hcs0, hrest, if_neg hne0, Except.ok.injEq,
                    Prod.mk.injEq] at h
                  rw [← h.2]
                  exact hrec

theorem mergeStep_lookup_ne (enc out : DsEncoding) (nv : String × CVar)
    (name : String) (h : nv.1 ≠ name) :
    lookupKey name (mergeStep enc out nv) = lookupKey name out := by
  rw [mergeStep]
  cases he : lookupKey nv.1 enc with
  | none => rfl
  | some ve =>
      cases ho : lookupKey nv.1 out with
      | none =>
          rw [lookupKey_append]
          cases h2 : lookupKey name out with
          | some w => rfl
          | none => simp [lookupKey, h]
      | some cur =>
          have hg : ∀ kv : String × VarEncoding,
              ((if kv.1 = nv.1 then (kv.1, dictUpdate cur ve) else kv) :
                String × VarEncoding).1 = kv.1 := by
            intro kv
            by_cases hk : kv.1 = nv.1
            · rw [if_pos hk]
            · rw [if_neg hk]
          rw [lookupKey_map_entry _ hg, lookupKey_eq_find]
          cases hf : out.find? (fun kv => decide (kv.1 = name)) with
          | none => rfl
          | some e =>
              have hkey := find?_key_eq name out e hf
              simp only [Option.map_some']
              rw [if_neg (by rw [hkey]; exact fun hh => h hh.symm)]

theorem mergeStep_lookup_self (enc out : DsEncoding) (nv : String × CVar) :
    lookupKey nv.1 (mergeStep enc out nv) =
      match lookupKey nv.1 enc with
      | none => lookupKey nv.1 out
      | some ve =>
          match lookupKey nv.1 out with
          | none => some ve
          | some cur => some (dictUpdate cur ve) := by
  rw [mergeStep]
  cases he : lookupKey nv.1 enc with
  | none => rfl
  | some ve =>
      cases ho : lookupKey nv.1 out with
      | none =>
          rw [lookupKey_append, ho]
          simp [lookupKey]
      | some cur =>
          have hg : ∀ kv : String × VarEncoding,
              ((if kv.1 = nv.1 then (kv.1, dictUpdate cur ve) else kv) :
                String × VarEncoding).1 = kv.1 := by
            intro kv
            by_cases hk : kv.1 = nv.1
            · rw [if_pos hk]
            · rw [if_neg hk]
          rw [lookupKey_map_entry _ hg]
          rw [lookupKey_eq_find] at ho
          cases hf : out.find? (fun kv => decide (kv.1 = nv.1)) with
          | none => rw [hf] at ho; cases ho
          | some e =>
              rw [hf] at ho
              have hkey := find?_key_eq nv.1 out e hf
              have hval : e.2 = cur := Option.some.inj ho
              simp only [Option.map_some']
              rw [if_pos hkey]

theorem mergeFold_lookup_notmem (enc : DsEncoding) (name : String) :
    ∀ (vs : List (String × CVar)) (out : DsEncoding), name ∉ vs.map Prod.fst →
      lookupKey name (vs.foldl (mergeStep enc) out) = lookupKey name out := by
  intro vs
  induction vs with
  | nil => intro out _; rfl
  | cons nv rest ih =>
      intro out hmem
      simp only [List.map_cons, List.mem_cons] at hmem
      push_neg at hmem
      rw [List.foldl_cons, ih _ hmem.2]
      exact mergeStep_lookup_ne enc out nv name (fun he => hmem.1 he.symm)

theorem mergeFold_lookup_mem (enc : DsEncoding) (name : String) :
    ∀ (vs : List (String × CVar)) (out : DsEncoding), (vs.map Prod.fst).Nodup →
      name ∈ vs.map Prod.fst →
      lookupKey name (vs.foldl (mergeStep enc) out) =
        match lookupKey name enc with
        | none => lookupKey name out
        | some ve =>
            match lookupKey name out with
            | none => some ve
            | some cur => some (dictUpdate cur ve) := by
  intro vs
  induction vs with
  | nil => intro out _ hmem; cases hmem
  | cons nv rest ih =>
      intro out hnodup hmem
      simp only [List.map_cons, List.nodup_cons] at hnodup
      simp only [List.map_cons, List.mem_cons] at hmem
      rw [List.foldl_cons]
      rcases hmem with hm | hm
      · subst hm
        rw [mergeFold_lookup_notmem enc nv.1 rest _ hnodup.1]
        exact mergeStep_lookup_self enc out nv
      · have hne : nv.1 ≠ name := fun he => hnodup.1 (he ▸ hm)
        rw [ih _ hnodup.2 hm, mergeStep_lookup_ne enc out nv name hne]

/-- C4 (counterexample).  With the rechunk override resolving `r_f32` to
chunks `(2, 2, 2)` and a user encoding carrying `chunks=(3, 3, 3)`, the
final merged encoding takes the user's `chunks`, not the rechunk
computation's; and an `"input"` rule on a dask-chunked dimension with a
single chunk makes `process_dataset` raise `TypeError` instead of
yielding the largest existing chunk size. -/
theorem claim_C4_counterexample :
    resolveVarChunks cfgC4.rechunk varC4 "r_f32" = .ok [2, 2, 2] ∧
    (process_dataset cfgC4 dsC4).map (fun p => lookupKey "r_f32" p.2) =
      .ok (some [("chunks", EncVal.chunksVal [3, 3, 3]),
                 ("compressor", EncVal.strVal "None")]) ∧
    process_dataset cfgC4b dsC4b = .error "TypeError: 'int' object is not iterable" := by
  exact ⟨by decide, by decide, by decide⟩

/-- C4 (amended).  For a processed dataset (no renames, rechunk rules
configured, unique variable names) and a variable with at least one
dimension: if every dimension's effective chunk value over all variables
is valid and does not hit the `max(*chunks)` `TypeError` (an `"input"`
rule on a dask-chunked dimension whose chunk tuple has fewer than two
entries), processing succeeds, the variable's resolved chunk sizes follow
the per-dimension rule (`input` → largest existing chunk or the dimension
size when unchunked, `None` → dimension size, integer → itself), and the
final merged encoding entry is the rechunk-computed `chunks` dict updated
by the user encoding — the user value winning on every conflict, including
`chunks` itself; if some variable has a dimension with an invalid chunk
value or a crashing `"input"` resolution, processing fails. -/
theorem claim_C4_process_encoding (cfg : ProcessorCfg) (ds : CDataset) (name : String)
    (v : CVar)
    (hren : cfg.rename = [])
    (hrk : cfg.rechunk ≠ [])
    (hnodup : (ds.vars.map Prod.fst).Nodup)
    (hv : lookupKey name ds.vars = some v)
    (hdne : v.dims ≠ []) :
    ((∃ nv ∈ ds.vars, ∃ p ∈ nv.2.dims.enumFrom 0,
        ((lookupKey p.2 (effectiveDimChunkSizes (rechunkStar cfg.rechunk)
          (lookupKey nv.1 cfg.rechunk) nv.2)).getD .input).isOther = true ∨
        chunkValCrashes nv.2 p.1 ((lookupKey p.2 (effectiveDimChunkSizes
          (rechunkStar cfg.rechunk) (lookupKey nv.1 cfg.rechunk) nv.2)).getD .input)
          = true) →
      ∃ e, process_dataset cfg ds = .error e) ∧
    ((∀ nv ∈ ds.vars, ∀ p ∈ nv.2.dims.enumFrom 0,
        ((lookupKey p.2 (effectiveDimChunkSizes (rechunkStar cfg.rechunk)
          (lookupKey nv.1 cfg.rechunk) nv.2)).getD .input).isOther = false ∧
        chunkValCrashes nv.2 p.1 ((lookupKey p.2 (effectiveDimChunkSizes
          (rechunkStar cfg.rechunk) (lookupKey nv.1 cfg.rechunk) nv.2)).getD .input)
          = false) →
      ∃ ds2 enc, process_dataset cfg ds = .ok (ds2, enc) ∧
        resolveVarChunks cfg.rechunk v name =
          .ok ((v.dims.enumFrom 0).map (fun p => specResolvedChunkSize v p.1 p.2
            ((lookupKey p.2 (effectiveDimChunkSizes (rechunkStar cfg.rechunk)
              (lookupKey name cfg.rechunk) v)).getD .input))) ∧
        lookupKey name enc =
          some (dictUpdate [("chunks", EncVal.chunksVal
              ((v.dims.enumFrom 0).map (fun p => specResolvedChunkSize v p.1 p.2
                ((lookupKey p.2 (effectiveDimChunkSizes (rechunkStar cfg.rechunk)
                  (lookupKey name cfg.rechunk) v)).getD .input))))]
            ((lookupKey name cfg.outputEncoding).getD []))) := by
  constructor
  · rintro ⟨nv, hmem, p, hp, hbad⟩
    have hvce : ∃ e, resolveVarChunks cfg.rechunk nv.2 nv.1 = .error e := by
      rw [resolveVarChunks]
      exact resolveChunksGo_error nv.2 _ nv.2.dims 0 ⟨p, hp, hbad⟩
    obtain ⟨e, hrde⟩ := rechunkDataset_error cfg.rechunk ds.vars ⟨nv, hmem, hvce⟩
    refine ⟨e, ?_⟩
    simp only [process_dataset, hren, ne_eq, not_true_eq_false, if_false, hrk,
      not_false_eq_true, if_true, hrde, Except.map]
  · intro hno
    have hallok : ∀ nv ∈ ds.vars, ∃ cs, resolveVarChunks cfg.rechunk nv.2 nv.1 = .ok cs := by
      intro nv hnv
      rw [resolveVarChunks]
      exact ⟨_, resolveChunksGo_ok nv.2 _ nv.2.dims 0 (hno nv hnv)⟩
    obtain ⟨⟨vars', enc'⟩, hrd⟩ := rechunkDataset_ok cfg.rechunk ds.vars hallok
    have hres : resolveVarChunks cfg.rechunk v name =
        .ok ((v.dims.enumFrom 0).map (fun p => specResolvedChunkSize v p.1 p.2
          ((lookupKey p.2 (effectiveDimChunkSizes (rechunkStar cfg.rechunk)
            (lookupKey name cfg.rechunk) v)).getD .input))) := by
      rw [resolveVarChunks]
      exact resolveChunksGo_ok v _ v.dims 0
        (hno (name, v) (mem_of_lookupKey_some name ds.vars v hv))
    have hcsne : ((v.dims.enumFrom 0).map (fun p => specResolvedChunkSize v p.1 p.2
        ((lookupKey p.2 (effectiveDimChunkSizes (rechunkStar cfg.rechunk)
          (lookupKey name cfg.rechunk) v)).getD .input))) ≠ [] := by
      cases hdm : v.dims with
      | nil => exact absurd hdm hdne
      | cons d rest => simp [List.enumFrom]
    have hproc : process_dataset cfg ds =
        .ok (CDataset.mk vars', mergeEncodings (CDataset.mk vars')
          [enc', cfg.outputEncoding]) := by
      simp only [process_dataset, hren, ne_eq, not_true_eq_false, if_false, hrk,
        not_false_eq_true, if_true, hrd, Except.map]
    have hlookenc := rechunkDataset_enc_lookup cfg.rechunk ds.vars name v _ vars' enc'
      hv hres hcsne hrd
    have hnames := rechunkDataset_names cfg.rechunk ds.vars vars' enc' hrd
    have hmem2 : name ∈ vars'.map Prod.fst := by
      rw [hnames]
      apply (lookupKey_isSome_iff_mem name ds.vars).mp
      rw [hv]
      rfl
    have hnodup2 : (vars'.map Prod.fst).Nodup := by
      rw [hnames]
      exact hnodup
    refine ⟨CDataset.mk vars', _, hproc, hres, ?_⟩
    show lookupKey name (mergeOneEncoding (CDataset.mk vars')
      (mergeOneEncoding (CDataset.mk vars') [] enc') cfg.outputEncoding) = _
    have hinner : lookupKey name (mergeOneEncoding (CDataset.mk vars') [] enc') =
        some [("chunks", EncVal.chunksVal
          ((v.dims.enumFrom 0).map (fun p => specResolvedChunkSize v p.1 p.2
            ((lookupKey p.2 (effectiveDimChunkSizes (rechunkStar cfg.rechunk)
              (lookupKey name cfg.rechunk) v)).getD .input))))] := by
      show lookupKey name (vars'.foldl (mergeStep enc') []) = _
      rw [mergeFold_lookup_mem enc' name vars' [] hnodup2 hmem2, hlookenc]
      rfl
    show lookupKey name (vars'.foldl (mergeStep cfg.outputEncoding) _) = _
    rw [mergeFold_lookup_mem cfg.outputEncoding name vars' _ hnodup2 hmem2, hinner]
    cases hue : lookupKey name cfg.outputEncoding with
    | none =>
        simp only [Option.getD_none]
        rw [dictUpdate_nil]
    | some ue =>
        simp only [Option.getD_some]

/-- Witness for C4: the counterexample configuration also exercises the
success branch — processing succeeds, the rechunk computation resolves
`(2, 2, 2)`, and the user encoding's `chunks=(3, 3, 3)` wins in the merged
output. -/
theorem claim_C4_process_encoding_witness :
    ∃ ds2 enc, process_dataset cfgC4 dsC4 = .ok (ds2, enc) ∧
      resolveVarChunks cfgC4.rechunk varC4 "r_f32" =
        .ok [2, 2, 2] ∧
      lookupKey "r_f32" enc =
        some [("chunks", EncVal.chunksVal [3, 3, 3]),
              ("compressor", EncVal.strVal "None")] := by
  obtain ⟨ds2, enc, hok, hres, henc⟩ := (claim_C4_process_encoding cfgC4 dsC4 "r_f32" varC4
    rfl (by decide) (by decide) (by decide) (by decide)).2 (by decide)
  refine ⟨ds2, enc, hok, ?_, ?_⟩
  · rw [hres]
    decide
  · rw [henc]
    decide

/-! ### Preprocessor time synthesis (C7) -/

theorem lookupKey_filter_none {α : Type} (k : String) (p : String × α → Bool)
    (hp : ∀ kv : String × α, kv.1 = k → p kv = false) :
    ∀ l : List (String × α), lookupKey k (l.filter p) = none := by
  intro l
  induction l with
  | nil => rfl
  | cons kv rest ih =>
      by_cases hk : kv.1 = k
      · simp [List.filter_cons, hp kv hk, ih]
      · cases hpv : p kv
        · simpa [List.filter_cons, hpv] using ih
        · simp [List.filter_cons, hpv, lookupKey, hk, ih]

/-- C7 (counterexample).  The preprocessor fails on
`time_coverage_start="A20200101"` — pandas cannot parse the whole string —
although the substring matcher the specification describes (which lives in
`time.py` and is not called by the preprocessor) parses the embedded
`%Y%m%d` date. -/
theorem claim_C7_counterexample :
    ensure_dataset_has_concat_dim dsC7 "time" none =
      .error "Cannot parse timestamp from A20200101" ∧
    (get_timestamp_from_string "A20200101").isSome = true := by
  exact ⟨by decide, by decide⟩

/-- C7 (amended).  For a dataset lacking the concatenation dimension
`time` (no `time` or `time_bnds` variable, no variable with a `time`
dimension), the preprocessor derives the bounds by parsing each whole
`time_coverage_start` / `time_coverage_end` attribute with pandas (an
explicit datetime format, else pandas' own inference — not the
`%Y%m%d%H%M%S | %Y%m%d%H%M | %Y%m%d | %Y%m | %Y` substring precedence); a
missing bound defaults to the present one; the synthesized `time`
coordinate is a single element at the midpoint of the bounds carrying
`bounds=time_bnds`, together with a `time_bnds` variable of shape
`(1, 2)`. -/
theorem claim_C7_time_synthesis (ds : TDataset) (fmt : Option String) (start stop : Int)
    (hvtc : lookupKey "time" ds.coordVars = none)
    (hvtd : lookupKey "time" ds.dataVars = none)
    (hvbc : lookupKey "time_bnds" ds.coordVars = none)
    (hvbd : lookupKey "time_bnds" ds.dataVars = none)
    (hcnd : ∀ kv ∈ ds.coordVars, kv.2.dims.contains "time" = false)
    (hdnd : ∀ kv ∈ ds.dataVars, kv.2.dims.contains "time" = false)
    (hcov : get_time_coverage_from_ds ds.attrs fmt = .ok (start, stop)) :
    (∀ s a, lookupKey "time_coverage_start" ds.attrs = some s →
      lookupKey "time_coverage_end" ds.attrs = none →
      parse_timestamp fmt s = .ok a → start = a ∧ stop = a) ∧
    ∃ ds', ensure_dataset_has_concat_dim ds "time" fmt = .ok ds' ∧
      ds'.getVar "time" =
        some ⟨["time"], [1], [timestampMid start stop], [("bounds", "time_bnds")]⟩ ∧
      ds'.getVar "time_bnds" = some ⟨["time", "bnds"], [1, 2], [start, stop], []⟩ := by
  constructor
  · intro s a hs hend hparse
    rw [get_time_coverage_from_ds, hs, hend] at hcov
    simp only [Except.map] at hcov
    rw [hparse] at hcov
    simp only [Except.ok.injEq, Prod.mk.injEq] at hcov
    exact ⟨hcov.1.symm, hcov.2.symm⟩
  · have hgv : ds.getVar "time" = none := by
      rw [TDataset.getVar, hvtc, hvtd]
    have hhk1 : hasKey "time" ds.coordVars = false := by
      rw [hasKey, hvtc]
      rfl
    have hlb1 : lookupKey "time_bnds"
        (ds.coordVars ++ [("time", synthTimeVar start stop)]) = none := by
      rw [lookupKey_append, hvbc]
      rfl
    have hhk2 : hasKey "time_bnds"
        (ds.coordVars ++ [("time", synthTimeVar start stop)]) = false := by
      rw [hasKey, hlb1]
      rfl
    have hused : ((ds.dataVars.filter (fun kv => kv.1 ≠ "time")).filter
        (fun kv => kv.1 ≠ "time_bnds")).any
        (fun kv => kv.2.dims.contains "time") = false := by
      apply List.any_eq_false.mpr
      intro kv hkv
      have hm : kv ∈ ds.dataVars :=
        (List.mem_filter.mp (List.mem_filter.mp hkv).1).1
      simp only [hdnd kv hm]
      decide
    have hlb2 : lookupKey "time_bnds"
        ((ds.coordVars ++ [("time", synthTimeVar start stop)]) ++
          [("time_bnds", synthTimeBndsVar start stop)]) = some
          (synthTimeBndsVar start stop) := by
      rw [lookupKey_append, hlb1]
      rfl
    have hcv3t : lookupKey "time"
        (((ds.coordVars ++ [("time", synthTimeVar start stop)]) ++
          [("time_bnds", synthTimeBndsVar start stop)]).filter
          (fun kv => ¬ ["time", "time_bnds"].contains kv.1)) = none := by
      apply lookupKey_filter_none
      intro kv hk
      rw [hk]
      rfl
    have hcv3b : lookupKey "time_bnds"
        (((ds.coordVars ++ [("time", synthTimeVar start stop)]) ++
          [("time_bnds", synthTimeBndsVar start stop)]).filter
          (fun kv => ¬ ["time", "time_bnds"].contains kv.1)) = none := by
      apply lookupKey_filter_none
      intro kv hk
      rw [hk]
      rfl
    have hnodim : ∀ kv ∈ (((ds.coordVars ++ [("time", synthTimeVar start stop)]) ++
          [("time_bnds", synthTimeBndsVar start stop)]).filter
          (fun kv => ¬ ["time", "time_bnds"].contains kv.1)) ++
        (((ds.dataVars.filter (fun kv => kv.1 ≠ "time")).filter
          (fun kv => kv.1 ≠ "time_bnds")).filter
          (fun kv => ¬ ["time", "time_bnds"].contains kv.1)),
        kv.2.dims.contains "time" = false := by
      intro kv hkv
      rcases List.mem_append.mp hkv with hc | hd
      · have hm := List.mem_filter.mp hc
        rcases List.mem_append.mp hm.1 with h1 | h2
        · rcases List.mem_append.mp h1 with h0 | ht
          · exact hcnd kv h0
          · exfalso
            have hkv1 : kv = ("time", synthTimeVar start stop) := by simpa using ht
            rw [hkv1] at hm
            exact Bool.false_ne_true (show (false : Bool) = true from hm.2)
        · exfalso
          have hkv1 : kv = ("time_bnds", synthTimeBndsVar start stop) := by simpa using h2
          rw [hkv1] at hm
          exact Bool.false_ne_true (show (false : Bool) = true from hm.2)
      · have hm : kv ∈ ds.dataVars :=
          (List.mem_filter.mp (List.mem_filter.mp (List.mem_filter.mp hd).1).1).1
        exact hdnd kv hm
    have hnodim' : ((((ds.coordVars ++ [("time", synthTimeVar start stop)]) ++
          [("time_bnds", synthTimeBndsVar start stop)]).filter
          (fun kv => ¬ ["time", "time_bnds"].contains kv.1)) ++
        (((ds.dataVars.filter (fun kv => kv.1 ≠ "time")).filter
          (fun kv => kv.1 ≠ "time_bnds")).filter
          (fun kv => ¬ ["time", "time_bnds"].contains kv.1))).any
        (fun kv => kv.2.dims.contains "time") = false := by
      apply List.any_eq_false.mpr
      intro kv hkv
      simp only [hnodim kv hkv]
      decide
    have hbnam : lookupKey "bounds" (synthTimeVar start stop).attrs = some "time_bnds" := rfl
    have hlast1 : lookupKey "time_bnds" [("time", synthTimeVar start stop)] = none := rfl
    have hlast2 : lookupKey "time" [("time", synthTimeVar start stop)] =
      some (synthTimeVar start stop) := rfl
    have hlast3 : lookupKey "time_bnds" [("time_bnds", synthTimeBndsVar start stop)] =
      some (synthTimeBndsVar start stop) := rfl
    have hrun : ensure_dataset_has_concat_dim ds "time" fmt = .ok
        { coordVars := ((ds.coordVars ++ [("time", synthTimeVar start stop)] ++ [("time_bnds", synthTimeBndsVar start stop)]).filter (fun kv => ¬ ["time", "time_bnds"].contains kv.1)) ++ [("time", synthTimeVar start stop)] ++ [("time_bnds", synthTimeBndsVar start stop)],
          dataVars := ((((ds.dataVars.filter (fun kv => kv.1 ≠ "time")).filter (fun kv => kv.1 ≠ "time_bnds")).filter (fun kv => ¬ ["time", "time_bnds"].contains kv.1)).map (fun kv => (kv.1, { kv.2 with dims := "time" :: kv.2.dims, shape := (synthTimeVar start stop).flat.length :: kv.2.shape, flat := replicateJoin (synthTimeVar start stop).flat.length kv.2.flat }))).filter (fun kv => kv.1 ≠ "time_bnds"),
          attrs := ds.attrs } := by
      simp only [ensure_dataset_has_concat_dim, hgv, hcov, TDataset.assignCoord, hasKey,
        hvtc, hvtd, Option.isSome_none, Option.isSome_some, Bool.false_eq_true, if_false,
        if_true, eq_self_iff_true, TDataset.getVar, TDataset.dropVars, TDataset.dropDims,
        TDataset.expandDims, TDataset.hasDim, lookupKey_append, hlb1, hlb2, hcv3t,
        hcv3b, hused, hnodim', hbnam, hlast1, hlast3, Option.getD_some]
    refine ⟨_, hrun, ?_, ?_⟩
    · simp only [TDataset.getVar, lookupKey_append, hcv3t, hlast2]
      rfl
    · simp only [TDataset.getVar, lookupKey_append, hcv3b, hlast1, hlast3]
      rfl

/-- Witness for C7: the ISO bounds `2020-09-08 10:30:00` / `12:30:00` (as
in the repository's preprocessor tests) yield a one-element `time`
coordinate at the midpoint and a `(1, 2)`-shaped `time_bnds`. -/
theorem claim_C7_time_synthesis_witness :
    ∃ ds', ensure_dataset_has_concat_dim dsC7w "time" none = .ok ds' ∧
      ds'.getVar "time" = some ⟨["time"], [1],
        [timestampMid (encodeTimestamp 2020 9 8 10 30 0) (encodeTimestamp 2020 9 8 12 30 0)],
        [("bounds", "time_bnds")]⟩ ∧
      ds'.getVar "time_bnds" = some ⟨["time", "bnds"], [1, 2],
        [encodeTimestamp 2020 9 8 10 30 0, encodeTimestamp 2020 9 8 12 30 0], []⟩ :=
  (claim_C7_time_synthesis dsC7w none (encodeTimestamp 2020 9 8 10 30 0)
    (encodeTimestamp 2020 9 8 12 30 0) (by decide) (by decide) (by decide) (by decide)
    (by decide) (by decide) (by decide)).2

end Nc2zarr
